import Mathlib

/-!
Verification development for the Transaction Coordinator component of the
EmosiFloww memory-NFT marketplace
(`decentralized-memory-marketplace/utils/transaction_coordinator.py`).

The Python source is shallowly embedded: dataclasses become structures,
enums become inductive types, dictionaries become association lists, the
asyncio-driven `while` loop of `process_transaction` becomes a fuel-indexed
recursive function, and the pluggable action handler (which in the source
either returns a result dictionary or raises) becomes a function into
`Except String PDict`.  Timestamps and uuid fragments are passed in as
explicit string arguments.  Python floats carrying monetary values are
modelled as rationals.
-/

namespace TxCoord

/-- `TransactionStatus` enum (transaction_coordinator.py lines 14-20). -/
inductive TransactionStatus where
  | pending
  | approved
  | executing
  | completed
  | failed
  | cancelled
deriving DecidableEq, Repr

/-- The `.value` string of a `TransactionStatus` member. -/
def TransactionStatus.value : TransactionStatus → String
  | .pending => "pending"
  | .approved => "approved"
  | .executing => "executing"
  | .completed => "completed"
  | .failed => "failed"
  | .cancelled => "cancelled"

/-- `TransactionStatus(s)`: recover the enum member from its string value;
`none` models the `ValueError` raised on an unknown string. -/
def TransactionStatus.ofString : String → Option TransactionStatus
  | "pending" => some .pending
  | "approved" => some .approved
  | "executing" => some .executing
  | "completed" => some .completed
  | "failed" => some .failed
  | "cancelled" => some .cancelled
  | _ => none

/-- `TransactionType` enum (lines 22-27). -/
inductive TransactionType where
  | nft_purchase
  | nft_listing
  | nft_transfer
  | batch_operation
  | escrow_release
deriving DecidableEq, Repr

def TransactionType.value : TransactionType → String
  | .nft_purchase => "nft_purchase"
  | .nft_listing => "nft_listing"
  | .nft_transfer => "nft_transfer"
  | .batch_operation => "batch_operation"
  | .escrow_release => "escrow_release"

def TransactionType.ofString : String → Option TransactionType
  | "nft_purchase" => some .nft_purchase
  | "nft_listing" => some .nft_listing
  | "nft_transfer" => some .nft_transfer
  | "batch_operation" => some .batch_operation
  | "escrow_release" => some .escrow_release
  | _ => none

/-- An atomic JSON-serialisable Python value. -/
inductive PAtom where
  | str (s : String)
  | num (q : ℚ)
  | bool (b : Bool)
  | null
deriving DecidableEq, Repr

/-- A flat Python `Dict[str, Any]` of atoms, used for caller-supplied
`metadata` mappings. -/
abbrev MDict := List (String × PAtom)

/-- A Python value inside a `parameters`/`result` dictionary: an atom, or
one embedded dictionary (the source nests at most one level, when
`create_listing` embeds the `metadata` mapping into its parameters). -/
inductive PValue where
  | atom (a : PAtom)
  | dict (d : MDict)
deriving DecidableEq, Repr

/-- A Python `Dict[str, Any]` as an association list. -/
abbrev PDict := List (String × PValue)

/-- Replace-or-append assignment `d[k] = v` on an association list,
mirroring Python dict update semantics. -/
def assocSet {α : Type} (d : List (String × α)) (k : String) (v : α) :
    List (String × α) :=
  if d.any (fun p => p.1 = k) then
    d.map (fun p => if p.1 = k then (k, v) else p)
  else
    d ++ [(k, v)]

/-- First binding of key `k` in an association list (Python `d[k]` /
`k in d`). -/
def assocFind {α : Type} (d : List (String × α)) (k : String) : Option α :=
  (d.find? (fun p => p.1 = k)).map (fun p => p.2)

/-- Remove key `k` (Python `del d[k]`). -/
def assocErase {α : Type} (d : List (String × α)) (k : String) :
    List (String × α) :=
  d.filter (fun p => ¬ p.1 = k)

/-- `TransactionStep` dataclass (lines 29-44).  `dependencies` defaults to
the empty list, matching `__post_init__`. -/
structure TransactionStep where
  step_id : String
  agent_address : String
  action : String
  parameters : PDict
  status : TransactionStatus
  result : Option PDict := none
  error_message : Option String := none
  timestamp : Option String := none
  dependencies : List String := []
deriving DecidableEq, Repr

/-- `Transaction` dataclass (lines 46-60). -/
structure Transaction where
  transaction_id : String
  transaction_type : TransactionType
  initiator_address : String
  participants : List String
  steps : List TransactionStep
  status : TransactionStatus
  total_value : ℚ
  fees : List (String × ℚ)
  metadata : MDict
  created_at : String
  updated_at : String
  completed_at : Option String := none
deriving DecidableEq, Repr

/-- `completed_step_ids` set built inside `get_next_pending_steps`
(line 65). -/
def completedStepIds (steps : List TransactionStep) : List String :=
  (steps.filter (fun s => s.status = TransactionStatus.completed)).map
    (fun s => s.step_id)

/-- The readiness test applied to one step inside
`Transaction.get_next_pending_steps` (lines 67-71): the step is `pending`
and every listed dependency id is among the completed step ids. -/
def stepReady (steps : List TransactionStep) (step : TransactionStep) : Bool :=
  step.status = TransactionStatus.pending ∧
    ∀ dep_id ∈ step.dependencies, dep_id ∈ completedStepIds steps

/-- `Transaction.get_next_pending_steps` (lines 62-72). -/
def Transaction.get_next_pending_steps (tx : Transaction) :
    List TransactionStep :=
  tx.steps.filter (stepReady tx.steps)

/-- `TransactionCoordinator` mutable state: the `active_transactions` dict
and the `transaction_history` list (lines 77-79).  The hard-coded
`agent_capabilities` table and the file name play no part in the claims. -/
structure TransactionCoordinator where
  active_transactions : List (String × Transaction) := []
  transaction_history : List Transaction := []
deriving DecidableEq, Repr

/-- An action handler: invoked with the step, it either returns a result
dictionary or raises (modelled as `Except.error` carrying `str(e)`).  In
the source the only installed handler is `simulate_step_execution`; claims
about failures quantify over arbitrary handlers, as the spec treats
handlers as pluggable. -/
abbrev Handler := TransactionStep → Except String PDict

/-- Outcome of one step execution, from the result-processing loop of
`execute_transaction_steps` (lines 400-410): an exception marks the step
`failed` and stores the message; a result marks it `completed`, stores the
result and stamps the timestamp. -/
def applyStepResult (now : String) (step : TransactionStep)
    (res : Except String PDict) : TransactionStep :=
  match res with
  | .error msg =>
      { step with status := TransactionStatus.failed,
                  error_message := some msg }
  | .ok r =>
      { step with status := TransactionStatus.completed,
                  result := some r,
                  timestamp := some now }

/-- `execute_transaction_steps` (lines 388-410): every step belonging to
the given ready batch is updated according to its handler outcome; all
other steps are left untouched. -/
def execute_transaction_steps (handler : Handler) (now : String)
    (tx : Transaction) (ready : List TransactionStep) : Transaction :=
  { tx with steps := tx.steps.map (fun s =>
      if s ∈ ready then applyStepResult now s (handler s) else s) }

/-- The `while transaction.status == EXECUTING` loop of
`process_transaction` (lines 346-375), fuel-indexed: one unit of fuel is
one pass of the loop body.  Exhausted fuel returns the state as-is,
modelling an unfinished (still running / stalled) loop. -/
def processLoop (handler : Handler) (now : String) :
    Nat → Transaction → Transaction
  | 0, tx => tx
  | fuel + 1, tx =>
    if tx.status = TransactionStatus.executing then
      if tx.get_next_pending_steps.isEmpty then
        if ¬ (tx.steps.filter
            (fun s => s.status = TransactionStatus.failed)).isEmpty then
          { tx with status := TransactionStatus.failed }
        else if (tx.steps.filter
            (fun s => s.status = TransactionStatus.completed)).length
              = tx.steps.length then
          { tx with status := TransactionStatus.completed,
                    completed_at := some now }
        else
          processLoop handler now fuel tx
      else
        processLoop handler now fuel
          { execute_transaction_steps handler now tx
              tx.get_next_pending_steps with updated_at := now }
    else tx

/-- `process_transaction` (lines 332-386): mark the transaction
`executing`, drive the loop, and move the transaction to history when it
ended `completed` or `failed`. -/
def process_transaction (handler : Handler) (now : String) (fuel : Nat)
    (c : TransactionCoordinator) (transaction_id : String) :
    TransactionCoordinator :=
  match assocFind c.active_transactions transaction_id with
  | none => c
  | some transaction =>
    let tx0 := { transaction with status := TransactionStatus.executing,
                                  updated_at := now }
    let txF := processLoop handler now fuel tx0
    if txF.status = TransactionStatus.completed ∨
        txF.status = TransactionStatus.failed then
      { c with
          active_transactions := assocErase c.active_transactions
            transaction_id,
          transaction_history := c.transaction_history ++ [txF] }
    else
      { c with
          active_transactions := assocSet c.active_transactions
            transaction_id txF }

/-- `cancel_transaction` (lines 503-524).  Returns the Python `bool`
together with the updated coordinator state. -/
def cancel_transaction (c : TransactionCoordinator)
    (transaction_id : String) (reason : String) (now : String) :
    Bool × TransactionCoordinator :=
  match assocFind c.active_transactions transaction_id with
  | none => (false, c)
  | some transaction =>
    if transaction.status = TransactionStatus.completed ∨
        transaction.status = TransactionStatus.failed then
      (false, c)
    else
      let tx1 := { transaction with
        status := TransactionStatus.cancelled,
        updated_at := now,
        metadata := assocSet transaction.metadata "cancellation_reason"
          (PAtom.str reason) }
      (true, { c with
          transaction_history := c.transaction_history ++ [tx1],
          active_transactions := assocErase c.active_transactions
            transaction_id })

/-- The fixed 5-step purchase plan built inside `initiate_nft_purchase`
(lines 157-220). -/
def purchaseSteps (transaction_id buyer_address seller_address
    nft_token_id : String) (purchase_price : ℚ) : List TransactionStep :=
  [ { step_id := transaction_id ++ "_step_1",
      agent_address := "memory_appraiser",
      action := "verify_valuation",
      parameters := [("nft_token_id", PValue.atom (PAtom.str nft_token_id)),
        ("offered_price", PValue.atom (PAtom.num purchase_price)),
        ("market_validation", PValue.atom (PAtom.bool true))],
      status := TransactionStatus.pending,
      dependencies := [] },
    { step_id := transaction_id ++ "_step_2",
      agent_address := "authenticity_validator",
      action := "verify_authenticity",
      parameters := [("nft_token_id", PValue.atom (PAtom.str nft_token_id)),
        ("seller_address", PValue.atom (PAtom.str seller_address)),
        ("comprehensive_check", PValue.atom (PAtom.bool true))],
      status := TransactionStatus.pending,
      dependencies := [] },
    { step_id := transaction_id ++ "_step_3",
      agent_address := "trading_legacy_agent",
      action := "setup_escrow",
      parameters := [("buyer_address", PValue.atom (PAtom.str buyer_address)),
        ("seller_address", PValue.atom (PAtom.str seller_address)),
        ("amount", PValue.atom (PAtom.num purchase_price)),
        ("nft_token_id", PValue.atom (PAtom.str nft_token_id))],
      status := TransactionStatus.pending,
      dependencies := [transaction_id ++ "_step_1",
        transaction_id ++ "_step_2"] },
    { step_id := transaction_id ++ "_step_4",
      agent_address := "trading_legacy_agent",
      action := "execute_transfer",
      parameters := [("from_address", PValue.atom (PAtom.str seller_address)),
        ("to_address", PValue.atom (PAtom.str buyer_address)),
        ("nft_token_id", PValue.atom (PAtom.str nft_token_id)),
        ("payment_amount", PValue.atom (PAtom.num purchase_price))],
      status := TransactionStatus.pending,
      dependencies := [transaction_id ++ "_step_3"] },
    { step_id := transaction_id ++ "_step_5",
      agent_address := "marketplace_coordinator",
      action := "finalize_transaction",
      parameters := [("transaction_id", PValue.atom (PAtom.str transaction_id)),
        ("update_market_data", PValue.atom (PAtom.bool true)),
        ("notify_participants", PValue.atom (PAtom.bool true))],
      status := TransactionStatus.pending,
      dependencies := [transaction_id ++ "_step_4"] } ]

/-- `initiate_nft_purchase` (lines 148-256).  The uuid fragment and the
current time are explicit arguments; scheduling of `process_transaction`
via `asyncio.create_task` is modelled separately by calling
`process_transaction` on the returned state. -/
def initiate_nft_purchase (c : TransactionCoordinator)
    (buyer_address seller_address nft_token_id : String)
    (purchase_price : ℚ) (metadata : Option MDict)
    (uuidHex : String) (now : String) : String × TransactionCoordinator :=
  let transaction_id := "tx_" ++ uuidHex
  let steps := purchaseSteps transaction_id buyer_address seller_address
    nft_token_id purchase_price
  let fees : List (String × ℚ) :=
    [("marketplace_fee", purchase_price * (25 / 1000)),
     ("gas_fee", 15), ("validation_fee", 5)]
  let transaction : Transaction :=
    { transaction_id := transaction_id,
      transaction_type := TransactionType.nft_purchase,
      initiator_address := buyer_address,
      participants := [buyer_address, seller_address, "memory_appraiser",
        "authenticity_validator", "trading_legacy_agent",
        "marketplace_coordinator"],
      steps := steps,
      status := TransactionStatus.pending,
      total_value := purchase_price,
      fees := fees,
      metadata := metadata.getD [],
      created_at := now,
      updated_at := now }
  (transaction_id,
    { c with active_transactions :=
        assocSet c.active_transactions transaction_id transaction })

/-- The 3-step listing plan built inside `initiate_nft_listing`
(lines 265-300).  Steps 1 and 2 omit `dependencies`, so `__post_init__`
gives them the empty list. -/
def listingSteps (transaction_id seller_address nft_token_id : String)
    (asking_price : ℚ) (metadata : Option MDict) : List TransactionStep :=
  [ { step_id := transaction_id ++ "_step_1",
      agent_address := "authenticity_validator",
      action := "verify_ownership",
      parameters := [("nft_token_id", PValue.atom (PAtom.str nft_token_id)),
        ("claimed_owner", PValue.atom (PAtom.str seller_address))],
      status := TransactionStatus.pending },
    { step_id := transaction_id ++ "_step_2",
      agent_address := "memory_appraiser",
      action := "market_valuation",
      parameters := [("nft_token_id", PValue.atom (PAtom.str nft_token_id)),
        ("asking_price", PValue.atom (PAtom.num asking_price)),
        ("provide_pricing_recommendation", PValue.atom (PAtom.bool true))],
      status := TransactionStatus.pending },
    { step_id := transaction_id ++ "_step_3",
      agent_address := "marketplace_coordinator",
      action := "create_listing",
      parameters := [("seller_address", PValue.atom (PAtom.str seller_address)),
        ("nft_token_id", PValue.atom (PAtom.str nft_token_id)),
        ("asking_price", PValue.atom (PAtom.num asking_price)),
        ("metadata", match metadata with
          | some m => PValue.dict m
          | none => PValue.atom PAtom.null)],
      status := TransactionStatus.pending,
      dependencies := [transaction_id ++ "_step_1",
        transaction_id ++ "_step_2"] } ]

/-- `initiate_nft_listing` (lines 258-330). -/
def initiate_nft_listing (c : TransactionCoordinator)
    (seller_address nft_token_id : String) (asking_price : ℚ)
    (metadata : Option MDict) (uuidHex : String) (now : String) :
    String × TransactionCoordinator :=
  let transaction_id := "tx_" ++ uuidHex
  let steps := listingSteps transaction_id seller_address nft_token_id
    asking_price metadata
  let transaction : Transaction :=
    { transaction_id := transaction_id,
      transaction_type := TransactionType.nft_listing,
      initiator_address := seller_address,
      participants := [seller_address, "authenticity_validator",
        "memory_appraiser", "marketplace_coordinator"],
      steps := steps,
      status := TransactionStatus.pending,
      total_value := asking_price,
      fees := [("listing_fee", 5), ("validation_fee", 3)],
      metadata := metadata.getD [],
      created_at := now,
      updated_at := now }
  (transaction_id,
    { c with active_transactions :=
        assocSet c.active_transactions transaction_id transaction })

/-- One entry of the `next_steps` list returned by
`get_transaction_status` (lines 492-500): step id, agent, action, status
string. -/
structure NextStepInfo where
  step_id : String
  agent : String
  action : String
  status : String
deriving DecidableEq, Repr

/-- The dictionary returned by `get_transaction_status` (lines 480-501).
The source returns exactly these keys; in particular the transaction's
`metadata` mapping is NOT among them. -/
structure StatusInfo where
  transaction_id : String
  type : String
  status : String
  progress : String
  progress_percentage : ℚ
  participants : List String
  total_value : ℚ
  fees : List (String × ℚ)
  created_at : String
  updated_at : String
  completed_at : Option String
  next_steps : List NextStepInfo
deriving DecidableEq, Repr

/-- The lookup at the head of `get_transaction_status` (lines 467-475):
the active dict first, then the first matching history entry. -/
def lookupTransaction (c : TransactionCoordinator)
    (transaction_id : String) : Option Transaction :=
  match assocFind c.active_transactions transaction_id with
  | some tx => some tx
  | none => c.transaction_history.find?
      (fun t => t.transaction_id = transaction_id)

/-- The dictionary built for a found transaction (lines 477-501).  Note
that the transaction's `metadata` mapping is not among the keys. -/
def statusSnapshot (tx : Transaction) : StatusInfo :=
  { transaction_id := tx.transaction_id,
    type := tx.transaction_type.value,
    status := tx.status.value,
    progress := toString (tx.steps.filter
        (fun s => s.status = TransactionStatus.completed)).length ++
      "/" ++ toString tx.steps.length,
    progress_percentage :=
      (((tx.steps.filter
        (fun s => s.status = TransactionStatus.completed)).length : ℚ) /
          (tx.steps.length : ℚ)) * 100,
    participants := tx.participants,
    total_value := tx.total_value,
    fees := tx.fees,
    created_at := tx.created_at,
    updated_at := tx.updated_at,
    completed_at := tx.completed_at,
    next_steps := tx.get_next_pending_steps.map (fun step =>
      { step_id := step.step_id,
        agent := step.agent_address,
        action := step.action,
        status := step.status.value }) }

/-- `get_transaction_status` (lines 464-501): `none` models the explicit
`return None`. -/
def get_transaction_status (c : TransactionCoordinator)
    (transaction_id : String) : Option StatusInfo :=
  (lookupTransaction c transaction_id).map statusSnapshot

/-- Serialised form of a `TransactionStep` as written by
`_save_transaction_data` (lines 135-137): all fields verbatim, the status
enum replaced by its string value. -/
structure StepData where
  step_id : String
  agent_address : String
  action : String
  parameters : PDict
  status : String
  result : Option PDict
  error_message : Option String
  timestamp : Option String
  dependencies : List String
deriving DecidableEq, Repr

/-- Serialised form of a `Transaction` (lines 129-139). -/
structure TxData where
  transaction_id : String
  transaction_type : String
  initiator_address : String
  participants : List String
  steps : List StepData
  status : String
  total_value : ℚ
  fees : List (String × ℚ)
  metadata : MDict
  created_at : String
  updated_at : String
  completed_at : Option String
deriving DecidableEq, Repr

def serializeStep (s : TransactionStep) : StepData :=
  { step_id := s.step_id, agent_address := s.agent_address,
    action := s.action, parameters := s.parameters,
    status := s.status.value, result := s.result,
    error_message := s.error_message, timestamp := s.timestamp,
    dependencies := s.dependencies }

def serializeTx (tx : Transaction) : TxData :=
  { transaction_id := tx.transaction_id,
    transaction_type := tx.transaction_type.value,
    initiator_address := tx.initiator_address,
    participants := tx.participants,
    steps := tx.steps.map serializeStep,
    status := tx.status.value,
    total_value := tx.total_value, fees := tx.fees,
    metadata := tx.metadata, created_at := tx.created_at,
    updated_at := tx.updated_at, completed_at := tx.completed_at }

/-- All transactions held by the coordinator:
`list(active_transactions.values()) + transaction_history`
(line 123). -/
def allTransactions (c : TransactionCoordinator) : List Transaction :=
  c.active_transactions.map (fun p => p.2) ++ c.transaction_history

/-- `_save_transaction_data` (lines 120-146): the snapshot written to the
store. -/
def saveData (c : TransactionCoordinator) : List TxData :=
  (allTransactions c).map serializeTx

/-- `TransactionStep(**step_data)` after
`TransactionStatus(step_data['status'])` (lines 103-105); `none` models
the `ValueError` on a bad status string. -/
def parseStep (d : StepData) : Option TransactionStep :=
  (TransactionStatus.ofString d.status).map (fun st =>
    { step_id := d.step_id, agent_address := d.agent_address,
      action := d.action, parameters := d.parameters, status := st,
      result := d.result, error_message := d.error_message,
      timestamp := d.timestamp, dependencies := d.dependencies })

/-- The step-conversion loop of `_load_transaction_data` (lines 102-105):
convert every saved step, aborting on the first bad status string. -/
def parseSteps : List StepData → Option (List TransactionStep)
  | [] => some []
  | d :: rest =>
    match parseStep d, parseSteps rest with
    | some s, some ss => some (s :: ss)
    | _, _ => none

/-- `Transaction(**tx_data)` after enum reconstruction (lines 96-108). -/
def parseTx (d : TxData) : Option Transaction :=
  match TransactionType.ofString d.transaction_type,
      TransactionStatus.ofString d.status, parseSteps d.steps with
  | some ty, some st, some steps =>
    some
      { transaction_id := d.transaction_id, transaction_type := ty,
        initiator_address := d.initiator_address,
        participants := d.participants, steps := steps, status := st,
        total_value := d.total_value, fees := d.fees,
        metadata := d.metadata, created_at := d.created_at,
        updated_at := d.updated_at, completed_at := d.completed_at }
  | _, _, _ => none

/-- The record-routing loop of `_load_transaction_data` (lines 96-112):
each parsed transaction goes to the active dict when `pending` or
`executing`, to the history list otherwise.  A parse failure raises, which
the surrounding `except` turns into stopping with the state built so
far. -/
def loadLoop : List TxData → TransactionCoordinator →
    TransactionCoordinator
  | [], c => c
  | d :: rest, c =>
    match parseTx d with
    | none => c
    | some tx =>
      if tx.status = TransactionStatus.pending ∨
          tx.status = TransactionStatus.executing then
        loadLoop rest
          { c with active_transactions :=
              assocSet c.active_transactions tx.transaction_id tx }
      else
        loadLoop rest
          { c with transaction_history := c.transaction_history ++ [tx] }

/-- `_load_transaction_data` (lines 89-118): `none` models a missing store
file, which yields the empty working set. -/
def loadData : Option (List TxData) → TransactionCoordinator
  | none => {}
  | some ds => loadLoop ds {}

/-! ## Concrete fixtures used by witnesses and counterexamples -/

/-- A handler whose every invocation succeeds with an empty result. -/
def handlerOkW : Handler := fun _ => Except.ok []

/-- A handler that raises exactly on the escrow step (scenario B of the
spec). -/
def handlerEscrowFailsW : Handler := fun s =>
  if s.action = "setup_escrow" then Except.error "boom" else Except.ok []

/-- Coordinator state right after `initiate_nft_purchase` on an empty
coordinator (uuid fragment `abc`, time `t0`). -/
def coordW : TransactionCoordinator :=
  (initiate_nft_purchase {} "B" "S" "X" 100 none "abc" "t0").2

/-- A placeholder transaction used only as the `getD` default below. -/
def fallbackTxW : Transaction :=
  { transaction_id := "", transaction_type := .nft_purchase,
    initiator_address := "", participants := [], steps := [],
    status := .pending, total_value := 0, fees := [], metadata := [],
    created_at := "", updated_at := "" }

/-- The freshly initiated purchase transaction of `coordW`. -/
def purchaseTxW : Transaction :=
  (assocFind coordW.active_transactions "tx_abc").getD fallbackTxW

/-- The same transaction as the loop sees it, already marked
`executing`. -/
def purchaseTxExecW : Transaction :=
  { purchaseTxW with status := .executing, updated_at := "t1" }

/-- A single ready step with no dependencies. -/
def oneStepW : TransactionStep :=
  { step_id := "tx_z_step_1", agent_address := "memory_appraiser",
    action := "verify_valuation", parameters := [],
    status := .pending, dependencies := [] }

/-- A one-step transaction already marked `executing`. -/
def oneStepTxW : Transaction :=
  { transaction_id := "tx_z", transaction_type := .nft_purchase,
    initiator_address := "B", participants := [],
    steps := [oneStepW],
    status := .executing, total_value := 1, fees := [], metadata := [],
    created_at := "t0", updated_at := "t0" }

/-! ## General list helpers -/

lemma length_filter_eq_length_iff {α : Type} (p : α → Bool)
    (l : List α) : (l.filter p).length = l.length ↔ ∀ a ∈ l, p a := by
  induction l with
  | nil => simp
  | cons x xs ih =>
    by_cases hx : p x
    · simp [List.filter_cons, hx, ih]
    · have hfx : List.filter p (x :: xs) = List.filter p xs := by
        simp [List.filter_cons, hx]
      rw [hfx, List.length_cons]
      constructor
      · intro h
        have := List.length_filter_le p xs
        omega
      · intro h
        exact absurd (h x (by simp)) (by simp [hx])

lemma filter_ne_nil_iff {α : Type} (p : α → Bool) (l : List α) :
    ¬ (l.filter p) = [] ↔ ∃ a ∈ l, p a := by
  simp [List.filter_eq_nil_iff]

/-! ## Basic facts about readiness and step execution -/

lemma mem_completedStepIds (steps : List TransactionStep) (d : String) :
    d ∈ completedStepIds steps ↔
      ∃ t ∈ steps, t.step_id = d ∧
        t.status = TransactionStatus.completed := by
  simp only [completedStepIds, List.mem_map, List.mem_filter,
    decide_eq_true_eq]
  constructor
  · rintro ⟨t, ⟨ht, hc⟩, rfl⟩
    exact ⟨t, ht, rfl, hc⟩
  · rintro ⟨t, ht, rfl, hc⟩
    exact ⟨t, ⟨ht, hc⟩, rfl⟩

lemma stepReady_iff (steps : List TransactionStep)
    (s : TransactionStep) :
    stepReady steps s = true ↔
      s.status = TransactionStatus.pending ∧
        ∀ d ∈ s.dependencies, d ∈ completedStepIds steps := by
  simp [stepReady]

lemma mem_get_next_pending_steps (tx : Transaction)
    (s : TransactionStep) :
    s ∈ tx.get_next_pending_steps ↔
      s ∈ tx.steps ∧ stepReady tx.steps s := by
  simp [Transaction.get_next_pending_steps, List.mem_filter]

lemma stepReady_pending {steps : List TransactionStep}
    {s : TransactionStep} (h : stepReady steps s = true) :
    s.status = TransactionStatus.pending :=
  ((stepReady_iff steps s).mp h).1

lemma applyStepResult_step_id (now : String) (s : TransactionStep)
    (r : Except String PDict) :
    (applyStepResult now s r).step_id = s.step_id := by
  cases r <;> rfl

lemma applyStepResult_dependencies (now : String) (s : TransactionStep)
    (r : Except String PDict) :
    (applyStepResult now s r).dependencies = s.dependencies := by
  cases r <;> rfl

lemma applyStepResult_status (now : String) (s : TransactionStep)
    (r : Except String PDict) :
    (applyStepResult now s r).status = TransactionStatus.completed ∨
      (applyStepResult now s r).status = TransactionStatus.failed := by
  cases r <;> simp [applyStepResult]

/-- Inside the loop, `execute_transaction_steps` applied to the ready set
acts pointwise: a step satisfying the readiness test is updated by its
handler outcome, every other step is mapped to itself. -/
lemma execute_ready_steps_eq (handler : Handler) (now : String)
    (tx : Transaction) :
    (execute_transaction_steps handler now tx
        tx.get_next_pending_steps).steps =
      tx.steps.map (fun s => if stepReady tx.steps s then
        applyStepResult now s (handler s) else s) := by
  show tx.steps.map _ = tx.steps.map _
  apply List.map_congr_left
  intro s hs
  by_cases hr : stepReady tx.steps s
  · rw [if_pos, if_pos hr]
    exact (mem_get_next_pending_steps tx s).mpr ⟨hs, hr⟩
  · rw [if_neg, if_neg hr]
    intro hmem
    exact hr ((mem_get_next_pending_steps tx s).mp hmem).2

lemma execute_transaction_steps_status (handler : Handler) (now : String)
    (tx : Transaction) (ready : List TransactionStep) :
    (execute_transaction_steps handler now tx ready).status = tx.status :=
  rfl

/-! ## Equation lemmas for the processing loop -/

lemma processLoop_zero (handler : Handler) (now : String)
    (tx : Transaction) : processLoop handler now 0 tx = tx := rfl

lemma processLoop_not_executing (handler : Handler) (now : String)
    (fuel : Nat) (tx : Transaction)
    (h : ¬ tx.status = TransactionStatus.executing) :
    processLoop handler now (fuel + 1) tx = tx := by
  rw [processLoop, if_neg h]

lemma processLoop_failed_branch (handler : Handler) (now : String)
    (fuel : Nat) (tx : Transaction)
    (h : tx.status = TransactionStatus.executing)
    (hready : tx.get_next_pending_steps = [])
    (hfail : ¬ (tx.steps.filter
      (fun s => s.status = TransactionStatus.failed)) = []) :
    processLoop handler now (fuel + 1) tx =
      { tx with status := TransactionStatus.failed } := by
  rw [processLoop, if_pos h, if_pos (by simp [hready]),
    if_pos (by simpa using hfail)]

lemma processLoop_completed_branch (handler : Handler) (now : String)
    (fuel : Nat) (tx : Transaction)
    (h : tx.status = TransactionStatus.executing)
    (hready : tx.get_next_pending_steps = [])
    (hfail : (tx.steps.filter
      (fun s => s.status = TransactionStatus.failed)) = [])
    (hlen : (tx.steps.filter
      (fun s => s.status = TransactionStatus.completed)).length
        = tx.steps.length) :
    processLoop handler now (fuel + 1) tx =
      { tx with status := TransactionStatus.completed,
                completed_at := some now } := by
  rw [processLoop, if_pos h, if_pos (by simp [hready]),
    if_neg (by simp [hfail]), if_pos hlen]

lemma processLoop_wait_branch (handler : Handler) (now : String)
    (fuel : Nat) (tx : Transaction)
    (h : tx.status = TransactionStatus.executing)
    (hready : tx.get_next_pending_steps = [])
    (hfail : (tx.steps.filter
      (fun s => s.status = TransactionStatus.failed)) = [])
    (hlen : ¬ (tx.steps.filter
      (fun s => s.status = TransactionStatus.completed)).length
        = tx.steps.length) :
    processLoop handler now (fuel + 1) tx =
      processLoop handler now fuel tx := by
  rw [processLoop, if_pos h, if_pos (by simp [hready]),
    if_neg (by simp [hfail]), if_neg hlen]

lemma processLoop_exec_branch (handler : Handler) (now : String)
    (fuel : Nat) (tx : Transaction)
    (h : tx.status = TransactionStatus.executing)
    (hready : ¬ tx.get_next_pending_steps = []) :
    processLoop handler now (fuel + 1) tx =
      processLoop handler now fuel
        { execute_transaction_steps handler now tx
            tx.get_next_pending_steps with updated_at := now } := by
  rw [processLoop, if_pos h, if_neg (by simpa [List.isEmpty_iff]
    using hready)]

/-! ## Claim C1: transaction status consistency -/

/-- Every terminal outcome of the loop pairs the transaction status with
the matching step-status evidence. -/
lemma processLoop_status_shape (handler : Handler) (now : String) :
    ∀ (fuel : Nat) (tx : Transaction),
      tx.status = TransactionStatus.executing →
      (processLoop handler now fuel tx).status =
          TransactionStatus.executing ∨
      ((processLoop handler now fuel tx).status =
          TransactionStatus.failed ∧
        ∃ s ∈ (processLoop handler now fuel tx).steps,
          s.status = TransactionStatus.failed) ∨
      ((processLoop handler now fuel tx).status =
          TransactionStatus.completed ∧
        ∀ s ∈ (processLoop handler now fuel tx).steps,
          s.status = TransactionStatus.completed) := by
  intro fuel
  induction fuel with
  | zero => intro tx h; exact Or.inl h
  | succ n ih =>
    intro tx h
    by_cases hready : tx.get_next_pending_steps = []
    · by_cases hfail : (tx.steps.filter
          (fun s => s.status = TransactionStatus.failed)) = []
      · by_cases hlen : (tx.steps.filter
            (fun s => s.status = TransactionStatus.completed)).length
              = tx.steps.length
        · rw [processLoop_completed_branch handler now n tx h hready
            hfail hlen]
          refine Or.inr (Or.inr ⟨rfl, ?_⟩)
          intro s hs
          have := (length_filter_eq_length_iff _ tx.steps).mp hlen s hs
          simpa using this
        · rw [processLoop_wait_branch handler now n tx h hready hfail
            hlen]
          exact ih tx h
      · rw [processLoop_failed_branch handler now n tx h hready hfail]
        refine Or.inr (Or.inl ⟨rfl, ?_⟩)
        have := (filter_ne_nil_iff _ tx.steps).mp hfail
        simpa using this
    · rw [processLoop_exec_branch handler now n tx h hready]
      exact ih _ (by rw [← h]; rfl)

/-- C1: for every transaction driven by the execution loop to a terminal
outcome, the transaction status is `completed` iff every step is
`completed`, and `failed` iff at least one step is `failed`. -/
theorem C1_status_consistency (handler : Handler) (now : String)
    (fuel : Nat) (tx : Transaction)
    (hexec : tx.status = TransactionStatus.executing)
    (hterm : (processLoop handler now fuel tx).status =
        TransactionStatus.completed ∨
      (processLoop handler now fuel tx).status =
        TransactionStatus.failed) :
    ((processLoop handler now fuel tx).status =
        TransactionStatus.completed ↔
      ∀ s ∈ (processLoop handler now fuel tx).steps,
        s.status = TransactionStatus.completed) ∧
    ((processLoop handler now fuel tx).status =
        TransactionStatus.failed ↔
      ∃ s ∈ (processLoop handler now fuel tx).steps,
        s.status = TransactionStatus.failed) := by
  rcases processLoop_status_shape handler now fuel tx hexec with
    hsh | ⟨hst, s, hs, hsf⟩ | ⟨hst, hall⟩
  · rw [hsh] at hterm
    rcases hterm with hc | hc <;> exact absurd hc (by simp)
  · constructor
    · constructor
      · intro hc; rw [hc] at hst; exact absurd hst (by simp)
      · intro hall
        exact absurd (hall s hs) (by simp [hsf])
    · exact ⟨fun _ => ⟨s, hs, hsf⟩, fun _ => hst⟩
  · constructor
    · exact ⟨fun _ => hall, fun _ => hst⟩
    · constructor
      · intro hf; rw [hf] at hst; exact absurd hst (by simp)
      · rintro ⟨s, hs, hsf⟩
        exact absurd (hall s hs) (by simp [hsf])

/-- Closed instance of `C1_status_consistency` on a concrete one-step
transaction run to completion. -/
theorem C1_status_consistency_witness :
    ((processLoop handlerOkW "t1" 2 oneStepTxW).status =
        TransactionStatus.completed ↔
      ∀ s ∈ (processLoop handlerOkW "t1" 2 oneStepTxW).steps,
        s.status = TransactionStatus.completed) ∧
    ((processLoop handlerOkW "t1" 2 oneStepTxW).status =
        TransactionStatus.failed ↔
      ∃ s ∈ (processLoop handlerOkW "t1" 2 oneStepTxW).steps,
        s.status = TransactionStatus.failed) :=
  C1_status_consistency handlerOkW "t1" 2 oneStepTxW (by decide)
    (Or.inl (by decide))

/-! ## Claim C2: ready set characterisation and dependency ordering -/

/-- All listed dependencies of `s` are completed within `steps`. -/
def depsCompleted (steps : List TransactionStep)
    (s : TransactionStep) : Prop :=
  ∀ d ∈ s.dependencies, ∃ t ∈ steps,
    t.step_id = d ∧ t.status = TransactionStatus.completed

instance (steps : List TransactionStep) (s : TransactionStep) :
    Decidable (depsCompleted steps s) :=
  inferInstanceAs (Decidable (∀ d ∈ s.dependencies, ∃ t ∈ steps,
    t.step_id = d ∧ t.status = TransactionStatus.completed))

/-- Dependency-ordering invariant: every step that is no longer `pending`
(it has been executed) has all its listed dependencies `completed`. -/
def executedRespectsDeps (steps : List TransactionStep) : Prop :=
  ∀ s ∈ steps, ¬ s.status = TransactionStatus.pending →
    depsCompleted steps s

instance (steps : List TransactionStep) :
    Decidable (executedRespectsDeps steps) :=
  inferInstanceAs (Decidable (∀ s ∈ steps,
    ¬ s.status = TransactionStatus.pending → depsCompleted steps s))

/-- A step that is `completed` in `tx.steps` survives one execution round
unchanged. -/
lemma completed_mem_iter (handler : Handler) (now : String)
    (tx : Transaction) {t : TransactionStep} (ht : t ∈ tx.steps)
    (hc : t.status = TransactionStatus.completed) :
    t ∈ (execute_transaction_steps handler now tx
      tx.get_next_pending_steps).steps := by
  rw [execute_ready_steps_eq]
  have hnr : ¬ stepReady tx.steps t = true := by
    intro hr
    rw [stepReady_pending hr] at hc
    exact absurd hc (by simp)
  have : (fun s => if stepReady tx.steps s then
      applyStepResult now s (handler s) else s) t = t := by
    simp [hnr]
  rw [← this]
  exact List.mem_map_of_mem _ ht

lemma depsCompleted_iter (handler : Handler) (now : String)
    (tx : Transaction) {s : TransactionStep}
    (h : depsCompleted tx.steps s) :
    depsCompleted ((execute_transaction_steps handler now tx
      tx.get_next_pending_steps).steps) s := by
  intro d hd
  obtain ⟨t, ht, htid, htc⟩ := h d hd
  exact ⟨t, completed_mem_iter handler now tx ht htc, htid, htc⟩

/-- One execution round preserves the dependency-ordering invariant. -/
lemma iter_preserves_respectsDeps (handler : Handler) (now : String)
    (tx : Transaction) (h : executedRespectsDeps tx.steps) :
    executedRespectsDeps ((execute_transaction_steps handler now tx
      tx.get_next_pending_steps).steps) := by
  intro s' hs' hnp
  rw [execute_ready_steps_eq] at hs'
  obtain ⟨s, hs, rfl⟩ := List.mem_map.mp hs'
  by_cases hr : stepReady tx.steps s
  · rw [if_pos hr]
    have hready := (stepReady_iff tx.steps s).mp hr
    have hdeps : depsCompleted tx.steps s := by
      intro d hd
      exact (mem_completedStepIds tx.steps d).mp (hready.2 d hd)
    have : depsCompleted ((execute_transaction_steps handler now tx
        tx.get_next_pending_steps).steps) s :=
      depsCompleted_iter handler now tx hdeps
    intro d hd
    rw [applyStepResult_dependencies] at hd
    exact this d hd
  · rw [if_neg hr] at hnp ⊢
    have hdeps : depsCompleted tx.steps s := h s hs hnp
    exact depsCompleted_iter handler now tx hdeps

/-- The whole loop preserves the dependency-ordering invariant. -/
lemma processLoop_preserves_respectsDeps (handler : Handler)
    (now : String) :
    ∀ (fuel : Nat) (tx : Transaction),
      executedRespectsDeps tx.steps →
      executedRespectsDeps (processLoop handler now fuel tx).steps := by
  intro fuel
  induction fuel with
  | zero => intro tx h; exact h
  | succ n ih =>
    intro tx h
    by_cases hex : tx.status = TransactionStatus.executing
    · by_cases hready : tx.get_next_pending_steps = []
      · by_cases hfail : (tx.steps.filter
            (fun s => s.status = TransactionStatus.failed)) = []
        · by_cases hlen : (tx.steps.filter
              (fun s => s.status = TransactionStatus.completed)).length
                = tx.steps.length
          · rw [processLoop_completed_branch handler now n tx hex hready
              hfail hlen]
            exact h
          · rw [processLoop_wait_branch handler now n tx hex hready
              hfail hlen]
            exact ih tx h
        · rw [processLoop_failed_branch handler now n tx hex hready
            hfail]
          exact h
      · rw [processLoop_exec_branch handler now n tx hex hready]
        exact ih _ (iter_preserves_respectsDeps handler now tx h)
    · rw [processLoop_not_executing handler now n tx hex]
      exact h

/-- C2: the ready set computed at each iteration is exactly the pending
steps whose every listed dependency is completed, and consequently the
loop preserves the invariant that an executed (non-`pending`) step has
all its listed dependencies `completed`. -/
theorem C2_ready_set_dependency_ordering (handler : Handler)
    (now : String) (fuel : Nat) (tx : Transaction)
    (hinv : executedRespectsDeps tx.steps) :
    (∀ s, s ∈ tx.get_next_pending_steps ↔
      s ∈ tx.steps ∧ s.status = TransactionStatus.pending ∧
        ∀ d ∈ s.dependencies, ∃ t ∈ tx.steps,
          t.step_id = d ∧ t.status = TransactionStatus.completed) ∧
    executedRespectsDeps (processLoop handler now fuel tx).steps := by
  constructor
  · intro s
    rw [mem_get_next_pending_steps]
    constructor
    · rintro ⟨hs, hr⟩
      obtain ⟨hp, hdeps⟩ := (stepReady_iff tx.steps s).mp hr
      exact ⟨hs, hp, fun d hd =>
        (mem_completedStepIds tx.steps d).mp (hdeps d hd)⟩
    · rintro ⟨hs, hp, hdeps⟩
      refine ⟨hs, (stepReady_iff tx.steps s).mpr ⟨hp, fun d hd => ?_⟩⟩
      exact (mem_completedStepIds tx.steps d).mpr (hdeps d hd)
  · exact processLoop_preserves_respectsDeps handler now fuel tx hinv

/-- Closed instance of `C2_ready_set_dependency_ordering` on the concrete
purchase plan driven with a failing escrow handler. -/
theorem C2_ready_set_dependency_ordering_witness :
    (∀ s, s ∈ purchaseTxExecW.get_next_pending_steps ↔
      s ∈ purchaseTxExecW.steps ∧
        s.status = TransactionStatus.pending ∧
        ∀ d ∈ s.dependencies, ∃ t ∈ purchaseTxExecW.steps,
          t.step_id = d ∧ t.status = TransactionStatus.completed) ∧
    executedRespectsDeps
      (processLoop handlerEscrowFailsW "t1" 6 purchaseTxExecW).steps :=
  C2_ready_set_dependency_ordering handlerEscrowFailsW "t1" 6
    purchaseTxExecW (by decide)

/-! ## Claim C3: isolated step failure -/

/-- A step that does not satisfy the readiness test survives one execution
round unchanged. -/
lemma unchanged_mem_iter (handler : Handler) (now : String)
    (tx : Transaction) {t : TransactionStep} (ht : t ∈ tx.steps)
    (hnr : ¬ stepReady tx.steps t = true) :
    t ∈ (execute_transaction_steps handler now tx
      tx.get_next_pending_steps).steps := by
  rw [execute_ready_steps_eq]
  have : (fun s => if stepReady tx.steps s then
      applyStepResult now s (handler s) else s) t = t := by
    simp [hnr]
  rw [← this]
  exact List.mem_map_of_mem _ ht

/-- A ready step appears after one execution round updated by its own
handler outcome. -/
lemma ready_mem_iter (handler : Handler) (now : String)
    (tx : Transaction) {t : TransactionStep} (ht : t ∈ tx.steps)
    (hr : stepReady tx.steps t = true) :
    applyStepResult now t (handler t) ∈
      (execute_transaction_steps handler now tx
        tx.get_next_pending_steps).steps := by
  rw [execute_ready_steps_eq]
  have : (fun s => if stepReady tx.steps s then
      applyStepResult now s (handler s) else s) t =
      applyStepResult now t (handler t) := by
    simp [hr]
  rw [← this]
  exact List.mem_map_of_mem _ ht

/-- One execution round changes no step id. -/
lemma iter_map_step_id (handler : Handler) (now : String)
    (tx : Transaction) :
    ((execute_transaction_steps handler now tx
        tx.get_next_pending_steps).steps.map (fun s => s.step_id)) =
      tx.steps.map (fun s => s.step_id) := by
  rw [execute_ready_steps_eq, List.map_map]
  apply List.map_congr_left
  intro s _
  by_cases hr : stepReady tx.steps s
  · simp [hr, applyStepResult_step_id]
  · simp [hr]

/-- `tid` is blocked behind the failed step id `fid`: either it is `fid`
itself, or it is a `pending` step one of whose listed dependencies is
blocked. -/
inductive Blocked (steps : List TransactionStep) (fid : String) :
    String → Prop
  | base : Blocked steps fid fid
  | dep (t : TransactionStep) (d : String) (ht : t ∈ steps)
      (hp : t.status = TransactionStatus.pending)
      (hd : d ∈ t.dependencies) (hb : Blocked steps fid d) :
      Blocked steps fid t.step_id

/-- Inversion for `Blocked`. -/
lemma blocked_id_cases {steps : List TransactionStep} {fid x : String}
    (hb : Blocked steps fid x) :
    x = fid ∨ ∃ u ∈ steps, u.step_id = x ∧
      u.status = TransactionStatus.pending ∧
      ∃ d ∈ u.dependencies, Blocked steps fid d := by
  cases hb with
  | base => exact Or.inl rfl
  | dep u d hu hup hd hbd => exact Or.inr ⟨u, hu, rfl, hup, d, hd, hbd⟩

/-- With distinct step ids, a blocked id is never among the completed step
ids (the failed step never completes, and a pending step never counts as
completed). -/
lemma blocked_not_completed {steps : List TransactionStep}
    {f : TransactionStep} {d : String}
    (hnd : (steps.map (fun s => s.step_id)).Nodup)
    (hf : f ∈ steps) (hff : f.status = TransactionStatus.failed)
    (hb : Blocked steps f.step_id d) :
    ¬ d ∈ completedStepIds steps := by
  intro hmem
  obtain ⟨t, ht, htid, htc⟩ := (mem_completedStepIds steps d).mp hmem
  cases hb with
  | base =>
    have : t = f := List.inj_on_of_nodup_map hnd ht hf htid
    rw [this, hff] at htc
    exact absurd htc (by simp)
  | dep u _ hu hup _ _ =>
    have : t = u := List.inj_on_of_nodup_map hnd ht hu htid
    rw [this, hup] at htc
    exact absurd htc (by simp)

/-- A pending step with a blocked dependency is not ready. -/
lemma blocked_not_ready {steps : List TransactionStep}
    {f t : TransactionStep} {d : String}
    (hnd : (steps.map (fun s => s.step_id)).Nodup)
    (hf : f ∈ steps) (hff : f.status = TransactionStatus.failed)
    (hd : d ∈ t.dependencies) (hb : Blocked steps f.step_id d) :
    ¬ stepReady steps t = true := by
  intro hr
  exact blocked_not_completed hnd hf hff hb
    (((stepReady_iff steps t).mp hr).2 d hd)

/-- Blockedness survives one execution round. -/
lemma blocked_iter (handler : Handler) (now : String) (tx : Transaction)
    {f : TransactionStep} {x : String}
    (hnd : (tx.steps.map (fun s => s.step_id)).Nodup)
    (hf : f ∈ tx.steps) (hff : f.status = TransactionStatus.failed)
    (hb : Blocked tx.steps f.step_id x) :
    Blocked ((execute_transaction_steps handler now tx
      tx.get_next_pending_steps).steps) f.step_id x := by
  induction hb with
  | base => exact Blocked.base
  | dep t d ht hp hd hbd ih =>
    have hnr : ¬ stepReady tx.steps t = true :=
      blocked_not_ready hnd hf hff hd hbd
    exact Blocked.dep t d (unchanged_mem_iter handler now tx ht hnr)
      hp hd ih

/-- Throughout the rest of the loop, a failed step stays in place
unchanged and every pending step blocked behind it stays in place
unchanged (hence stays `pending` forever). -/
lemma processLoop_blocked_persist (handler : Handler) (now : String) :
    ∀ (fuel : Nat) (tx : Transaction) (f t : TransactionStep),
      (tx.steps.map (fun s => s.step_id)).Nodup →
      f ∈ tx.steps → f.status = TransactionStatus.failed →
      t ∈ tx.steps → t.status = TransactionStatus.pending →
      Blocked tx.steps f.step_id t.step_id →
      t ∈ (processLoop handler now fuel tx).steps ∧
        f ∈ (processLoop handler now fuel tx).steps := by
  intro fuel
  induction fuel with
  | zero => intro tx f t _ hf _ ht _ _; exact ⟨ht, hf⟩
  | succ n ih =>
    intro tx f t hnd hf hff ht htp hb
    by_cases hex : tx.status = TransactionStatus.executing
    · by_cases hready : tx.get_next_pending_steps = []
      · by_cases hfail : (tx.steps.filter
            (fun s => s.status = TransactionStatus.failed)) = []
        · by_cases hlen : (tx.steps.filter
              (fun s => s.status = TransactionStatus.completed)).length
                = tx.steps.length
          · rw [processLoop_completed_branch handler now n tx hex hready
              hfail hlen]
            exact ⟨ht, hf⟩
          · rw [processLoop_wait_branch handler now n tx hex hready
              hfail hlen]
            exact ih tx f t hnd hf hff ht htp hb
        · rw [processLoop_failed_branch handler now n tx hex hready
            hfail]
          exact ⟨ht, hf⟩
      · rw [processLoop_exec_branch handler now n tx hex hready]
        have hfnr : ¬ stepReady tx.steps f = true := by
          intro hr
          rw [stepReady_pending hr] at hff
          exact absurd hff (by simp)
        have htnr : ¬ stepReady tx.steps t = true := by
          rcases blocked_id_cases hb with hbase | ⟨u, hu, huid, _, d, hd, hbd⟩
          · intro hr
            have : t = f := List.inj_on_of_nodup_map hnd ht hf hbase
            rw [this] at hr
            exact hfnr hr
          · have : u = t := List.inj_on_of_nodup_map hnd hu ht huid
            rw [← this]
            exact blocked_not_ready hnd hf hff hd hbd
        refine ih _ f t ?_ ?_ hff ?_ htp ?_
        · show ((execute_transaction_steps handler now tx
            tx.get_next_pending_steps).steps.map
              (fun s => s.step_id)).Nodup
          rw [iter_map_step_id]
          exact hnd
        · exact unchanged_mem_iter handler now tx hf hfnr
        · exact unchanged_mem_iter handler now tx ht htnr
        · exact blocked_iter handler now tx hnd hf hff hb
    · rw [processLoop_not_executing handler now n tx hex]
      exact ⟨ht, hf⟩

/-- C3: a handler error on one ready step marks exactly that step
`failed` with the error message recorded; other steps are updated only by
their own handler outcomes (non-ready steps, in particular already
completed ones, are unchanged, and no step id is touched); pending steps
blocked behind a failed step stay pending forever; and the transaction
becomes `failed` as soon as the ready set is empty while a failed step
exists. -/
theorem C3_step_failure_isolation (handler : Handler) (now : String)
    (tx : Transaction) (s : TransactionStep) (msg : String)
    (hs : s ∈ tx.get_next_pending_steps)
    (herr : handler s = Except.error msg) :
    ({ s with
        status := TransactionStatus.failed,
        error_message := some msg } ∈
      (execute_transaction_steps handler now tx
        tx.get_next_pending_steps).steps) ∧
    (∀ t ∈ tx.steps, ¬ stepReady tx.steps t = true →
      t ∈ (execute_transaction_steps handler now tx
        tx.get_next_pending_steps).steps) ∧
    (∀ t ∈ tx.steps, ∀ r, stepReady tx.steps t = true →
      handler t = Except.ok r →
      { t with
          status := TransactionStatus.completed,
          result := some r, timestamp := some now } ∈
        (execute_transaction_steps handler now tx
          tx.get_next_pending_steps).steps) ∧
    ((execute_transaction_steps handler now tx
        tx.get_next_pending_steps).steps.map (fun u => u.step_id) =
      tx.steps.map (fun u => u.step_id)) ∧
    (∀ (fuel : Nat) (tx1 : Transaction) (f t : TransactionStep),
      (tx1.steps.map (fun u => u.step_id)).Nodup →
      f ∈ tx1.steps → f.status = TransactionStatus.failed →
      t ∈ tx1.steps → t.status = TransactionStatus.pending →
      Blocked tx1.steps f.step_id t.step_id →
      t ∈ (processLoop handler now fuel tx1).steps ∧
        f ∈ (processLoop handler now fuel tx1).steps) ∧
    (∀ (fuel : Nat) (tx1 : Transaction),
      tx1.status = TransactionStatus.executing →
      tx1.get_next_pending_steps = [] →
      ¬ (tx1.steps.filter
        (fun u => u.status = TransactionStatus.failed)) = [] →
      processLoop handler now (fuel + 1) tx1 =
        { tx1 with status := TransactionStatus.failed }) := by
  obtain ⟨hsmem, hsr⟩ := (mem_get_next_pending_steps tx s).mp hs
  refine ⟨?_, ?_, ?_, iter_map_step_id handler now tx, ?_, ?_⟩
  · have h := ready_mem_iter handler now tx hsmem hsr
    rw [herr] at h
    simpa [applyStepResult] using h
  · intro t ht hnr
    exact unchanged_mem_iter handler now tx ht hnr
  · intro t ht r hr hok
    have h := ready_mem_iter handler now tx ht hr
    rw [hok] at h
    simpa [applyStepResult] using h
  · intro fuel tx1 f t hnd hf hff ht htp hb
    exact processLoop_blocked_persist handler now fuel tx1 f t hnd hf
      hff ht htp hb
  · intro fuel tx1 hex hready hfail
    exact processLoop_failed_branch handler now fuel tx1 hex hready hfail

/-- The purchase plan after its first execution round under the failing
escrow handler: steps 1 and 2 completed, the rest pending. -/
def purchaseTxRound1W : Transaction :=
  { execute_transaction_steps handlerEscrowFailsW "t1" purchaseTxExecW
      purchaseTxExecW.get_next_pending_steps with updated_at := "t1" }

/-- The escrow step as it sits (still pending) in `purchaseTxRound1W`. -/
def escrowStepW : TransactionStep :=
  (purchaseTxRound1W.steps.getD 2 oneStepW)

/-- Closed instance of `C3_step_failure_isolation`: scenario B, the
`setup_escrow` handler raising on the concrete purchase plan. -/
theorem C3_step_failure_isolation_witness :
    ({ escrowStepW with
        status := TransactionStatus.failed,
        error_message := some "boom" } ∈
      (execute_transaction_steps handlerEscrowFailsW "t1"
        purchaseTxRound1W
        purchaseTxRound1W.get_next_pending_steps).steps) ∧
    (∀ t ∈ purchaseTxRound1W.steps,
      ¬ stepReady purchaseTxRound1W.steps t = true →
      t ∈ (execute_transaction_steps handlerEscrowFailsW "t1"
        purchaseTxRound1W
        purchaseTxRound1W.get_next_pending_steps).steps) ∧
    (∀ t ∈ purchaseTxRound1W.steps, ∀ r,
      stepReady purchaseTxRound1W.steps t = true →
      handlerEscrowFailsW t = Except.ok r →
      { t with
          status := TransactionStatus.completed,
          result := some r, timestamp := some "t1" } ∈
        (execute_transaction_steps handlerEscrowFailsW "t1"
          purchaseTxRound1W
          purchaseTxRound1W.get_next_pending_steps).steps) ∧
    ((execute_transaction_steps handlerEscrowFailsW "t1"
        purchaseTxRound1W
        purchaseTxRound1W.get_next_pending_steps).steps.map
          (fun u => u.step_id) =
      purchaseTxRound1W.steps.map (fun u => u.step_id)) ∧
    (∀ (fuel : Nat) (tx1 : Transaction) (f t : TransactionStep),
      (tx1.steps.map (fun u => u.step_id)).Nodup →
      f ∈ tx1.steps → f.status = TransactionStatus.failed →
      t ∈ tx1.steps → t.status = TransactionStatus.pending →
      Blocked tx1.steps f.step_id t.step_id →
      t ∈ (processLoop handlerEscrowFailsW "t1" fuel tx1).steps ∧
        f ∈ (processLoop handlerEscrowFailsW "t1" fuel tx1).steps) ∧
    (∀ (fuel : Nat) (tx1 : Transaction),
      tx1.status = TransactionStatus.executing →
      tx1.get_next_pending_steps = [] →
      ¬ (tx1.steps.filter
        (fun u => u.status = TransactionStatus.failed)) = [] →
      processLoop handlerEscrowFailsW "t1" (fuel + 1) tx1 =
        { tx1 with status := TransactionStatus.failed }) :=
  C3_step_failure_isolation handlerEscrowFailsW "t1" purchaseTxRound1W
    escrowStepW "boom" (by decide) (by rfl)

/-! ## Equation lemmas for the coordinator operations -/

lemma assocFind_erase_self {α : Type} (d : List (String × α))
    (k : String) : assocFind (assocErase d k) k = none := by
  induction d with
  | nil => rfl
  | cons p rest ih =>
    by_cases hp : p.1 = k
    · simp only [assocErase, assocFind, List.filter_cons] at ih ⊢
      simp [hp, ih]
    · simp only [assocErase, assocFind, List.filter_cons] at ih ⊢
      simp [hp, List.find?_cons, ih]

lemma cancel_transaction_not_found (c : TransactionCoordinator)
    (i reason now : String)
    (h : assocFind c.active_transactions i = none) :
    cancel_transaction c i reason now = (false, c) := by
  unfold cancel_transaction
  rw [h]

lemma cancel_transaction_terminal (c : TransactionCoordinator)
    (i reason now : String) (tx : Transaction)
    (h : assocFind c.active_transactions i = some tx)
    (ht : tx.status = TransactionStatus.completed ∨
      tx.status = TransactionStatus.failed) :
    cancel_transaction c i reason now = (false, c) := by
  unfold cancel_transaction
  rw [h]
  simp only [if_pos ht]

lemma cancel_transaction_live (c : TransactionCoordinator)
    (i reason now : String) (tx : Transaction)
    (h : assocFind c.active_transactions i = some tx)
    (ht : ¬ (tx.status = TransactionStatus.completed ∨
      tx.status = TransactionStatus.failed)) :
    cancel_transaction c i reason now =
      (true, { c with
          transaction_history := c.transaction_history ++
            [{ tx with
                status := TransactionStatus.cancelled,
                updated_at := now,
                metadata := assocSet tx.metadata "cancellation_reason"
                  (PAtom.str reason) }],
          active_transactions :=
            assocErase c.active_transactions i }) := by
  unfold cancel_transaction
  rw [h]
  simp only [if_neg ht]

lemma process_transaction_not_found (handler : Handler) (now : String)
    (fuel : Nat) (c : TransactionCoordinator) (i : String)
    (h : assocFind c.active_transactions i = none) :
    process_transaction handler now fuel c i = c := by
  unfold process_transaction
  rw [h]

lemma process_transaction_terminal (handler : Handler) (now : String)
    (fuel : Nat) (c : TransactionCoordinator) (i : String)
    (tx : Transaction)
    (h : assocFind c.active_transactions i = some tx)
    (ht : (processLoop handler now fuel
        { tx with status := TransactionStatus.executing,
                  updated_at := now }).status =
          TransactionStatus.completed ∨
      (processLoop handler now fuel
        { tx with status := TransactionStatus.executing,
                  updated_at := now }).status = TransactionStatus.failed) :
    process_transaction handler now fuel c i =
      { c with
          active_transactions := assocErase c.active_transactions i,
          transaction_history := c.transaction_history ++
            [processLoop handler now fuel
              { tx with status := TransactionStatus.executing,
                        updated_at := now }] } := by
  unfold process_transaction
  rw [h]
  simp only [if_pos ht]

lemma process_transaction_nonterminal (handler : Handler) (now : String)
    (fuel : Nat) (c : TransactionCoordinator) (i : String)
    (tx : Transaction)
    (h : assocFind c.active_transactions i = some tx)
    (ht : ¬ ((processLoop handler now fuel
        { tx with status := TransactionStatus.executing,
                  updated_at := now }).status =
          TransactionStatus.completed ∨
      (processLoop handler now fuel
        { tx with status := TransactionStatus.executing,
                  updated_at := now }).status =
            TransactionStatus.failed)) :
    process_transaction handler now fuel c i =
      { c with
          active_transactions := assocSet c.active_transactions i
            (processLoop handler now fuel
              { tx with status := TransactionStatus.executing,
                        updated_at := now }) } := by
  unfold process_transaction
  rw [h]
  simp only [if_neg ht]

/-! ## Claim C4: cancellation semantics -/

/-- Counterexample to C4 as stated: after a successful cancellation the
transaction sits in history with status `cancelled` (neither `completed`
nor `failed`), yet a second `cancel` on its id fails, leaving the state
unchanged. -/
theorem C4_cancel_counterexample :
    (∃ t ∈ (cancel_transaction coordW "tx_abc" "r1"
        "t2").2.transaction_history,
      t.transaction_id = "tx_abc" ∧
        t.status = TransactionStatus.cancelled ∧
        ¬ (t.status = TransactionStatus.completed ∨
          t.status = TransactionStatus.failed)) ∧
    (cancel_transaction (cancel_transaction coordW "tx_abc" "r1" "t2").2
      "tx_abc" "r2" "t3").1 = false ∧
    (cancel_transaction (cancel_transaction coordW "tx_abc" "r1" "t2").2
        "tx_abc" "r2" "t3").2 =
      (cancel_transaction coordW "tx_abc" "r1" "t2").2 := by
  refine ⟨?_, by decide, by rfl⟩
  refine ⟨{ purchaseTxW with
      status := TransactionStatus.cancelled, updated_at := "t2",
      metadata := assocSet purchaseTxW.metadata "cancellation_reason"
        (PAtom.str "r1") }, ?_, by decide, by decide, by decide⟩
  rw [cancel_transaction_live coordW "tx_abc" "r1" "t2" purchaseTxW
    (by rfl) (by decide)]
  simp

/-- C4 (amended): `cancel` fails exactly when the id is absent from the
active set (in particular once the transaction reached any terminal
status and was moved to history) or the active transaction is `completed`
or `failed`; failure leaves the state unchanged; otherwise it cancels the
transaction, records the reason, stamps `updated_at`, moves it from the
active set to history so that the saved snapshot carries status string
`cancelled`, and returns success. -/
theorem C4_cancel_behaviour (c : TransactionCoordinator)
    (i reason now : String) :
    ((cancel_transaction c i reason now).1 = false ↔
      assocFind c.active_transactions i = none ∨
      ∃ tx, assocFind c.active_transactions i = some tx ∧
        (tx.status = TransactionStatus.completed ∨
          tx.status = TransactionStatus.failed)) ∧
    ((cancel_transaction c i reason now).1 = false →
      (cancel_transaction c i reason now).2 = c) ∧
    (∀ tx, assocFind c.active_transactions i = some tx →
      ¬ (tx.status = TransactionStatus.completed ∨
        tx.status = TransactionStatus.failed) →
      (cancel_transaction c i reason now).1 = true ∧
      (cancel_transaction c i reason now).2 =
        { c with
            transaction_history := c.transaction_history ++
              [{ tx with
                  status := TransactionStatus.cancelled,
                  updated_at := now,
                  metadata := assocSet tx.metadata
                    "cancellation_reason" (PAtom.str reason) }],
            active_transactions :=
              assocErase c.active_transactions i } ∧
      assocFind
        (cancel_transaction c i reason now).2.active_transactions i =
          none ∧
      serializeTx { tx with
          status := TransactionStatus.cancelled,
          updated_at := now,
          metadata := assocSet tx.metadata "cancellation_reason"
            (PAtom.str reason) } ∈
        saveData (cancel_transaction c i reason now).2 ∧
      (serializeTx { tx with
          status := TransactionStatus.cancelled,
          updated_at := now,
          metadata := assocSet tx.metadata "cancellation_reason"
            (PAtom.str reason) }).status = "cancelled") := by
  refine ⟨?_, ?_, ?_⟩
  · cases h : assocFind c.active_transactions i with
    | none =>
      rw [cancel_transaction_not_found c i reason now h]
      simp
    | some tx =>
      by_cases ht : tx.status = TransactionStatus.completed ∨
          tx.status = TransactionStatus.failed
      · rw [cancel_transaction_terminal c i reason now tx h ht]
        simpa using ht
      · rw [cancel_transaction_live c i reason now tx h ht]
        simpa using ht
  · intro hf
    cases h : assocFind c.active_transactions i with
    | none => rw [cancel_transaction_not_found c i reason now h]
    | some tx =>
      by_cases ht : tx.status = TransactionStatus.completed ∨
          tx.status = TransactionStatus.failed
      · rw [cancel_transaction_terminal c i reason now tx h ht]
      · rw [cancel_transaction_live c i reason now tx h ht] at hf
        exact absurd hf (by simp)
  · intro tx h ht
    rw [cancel_transaction_live c i reason now tx h ht]
    refine ⟨rfl, rfl, assocFind_erase_self _ i, ?_, rfl⟩
    show _ ∈ (allTransactions _).map serializeTx
    apply List.mem_map_of_mem
    show _ ∈ List.map _ _ ++ (_ ++ [_])
    simp

/-- Closed instance of `C4_cancel_behaviour`: scenario C, cancelling the
freshly initiated purchase succeeds and moves it to history. -/
theorem C4_cancel_behaviour_witness :
    (cancel_transaction coordW "tx_abc" "user requested" "t2").1 =
      true ∧
    (cancel_transaction coordW "tx_abc" "user requested" "t2").2 =
      { coordW with
          transaction_history := coordW.transaction_history ++
            [{ purchaseTxW with
                status := TransactionStatus.cancelled,
                updated_at := "t2",
                metadata := assocSet purchaseTxW.metadata
                  "cancellation_reason" (PAtom.str "user requested") }],
          active_transactions :=
            assocErase coordW.active_transactions "tx_abc" } ∧
    assocFind (cancel_transaction coordW "tx_abc" "user requested"
      "t2").2.active_transactions "tx_abc" = none ∧
    serializeTx { purchaseTxW with
        status := TransactionStatus.cancelled,
        updated_at := "t2",
        metadata := assocSet purchaseTxW.metadata "cancellation_reason"
          (PAtom.str "user requested") } ∈
      saveData (cancel_transaction coordW "tx_abc" "user requested"
        "t2").2 ∧
    (serializeTx { purchaseTxW with
        status := TransactionStatus.cancelled,
        updated_at := "t2",
        metadata := assocSet purchaseTxW.metadata "cancellation_reason"
          (PAtom.str "user requested") }).status = "cancelled" :=
  (C4_cancel_behaviour coordW "tx_abc" "user requested" "t2").2.2
    purchaseTxW (by rfl) (by decide)

/-! ## Claim C5: terminal transactions are immutable -/

/-- C5: a transaction that reaches a terminal status leaves the active
set and lands in history (loop-terminal ones via `process_transaction`,
cancelled ones via `cancel_transaction`, after which a further cancel
fails); once an id is absent from the active set, `cancel` and
`process_transaction` on it leave the whole state unchanged; and no
operation mutates an existing history entry. -/
theorem C5_terminal_transactions_immutable (handler : Handler)
    (now reason uuidHex buyer seller nft : String) (price : ℚ)
    (md : Option MDict) (fuel : Nat) (c : TransactionCoordinator)
    (i : String) :
    (∀ tx, assocFind c.active_transactions i = some tx →
      ((processLoop handler now fuel
          { tx with status := TransactionStatus.executing,
                    updated_at := now }).status =
            TransactionStatus.completed ∨
        (processLoop handler now fuel
          { tx with status := TransactionStatus.executing,
                    updated_at := now }).status =
            TransactionStatus.failed) →
      processLoop handler now fuel
          { tx with status := TransactionStatus.executing,
                    updated_at := now } ∈
        (process_transaction handler now fuel c i).transaction_history ∧
      assocFind (process_transaction handler now fuel
        c i).active_transactions i = none ∧
      (cancel_transaction (process_transaction handler now fuel c i)
        i reason now).1 = false ∧
      (cancel_transaction (process_transaction handler now fuel c i)
        i reason now).2 = process_transaction handler now fuel c i) ∧
    (∀ tx, assocFind c.active_transactions i = some tx →
      ¬ (tx.status = TransactionStatus.completed ∨
        tx.status = TransactionStatus.failed) →
      assocFind
        (cancel_transaction c i reason now).2.active_transactions i =
          none ∧
      { tx with
          status := TransactionStatus.cancelled,
          updated_at := now,
          metadata := assocSet tx.metadata "cancellation_reason"
            (PAtom.str reason) } ∈
        (cancel_transaction c i reason now).2.transaction_history) ∧
    (assocFind c.active_transactions i = none →
      cancel_transaction c i reason now = (false, c) ∧
      process_transaction handler now fuel c i = c) ∧
    (∀ t ∈ c.transaction_history,
      t ∈ (process_transaction handler now fuel
        c i).transaction_history ∧
      t ∈ (cancel_transaction c i reason now).2.transaction_history ∧
      t ∈ (initiate_nft_purchase c buyer seller nft price md uuidHex
        now).2.transaction_history ∧
      t ∈ (initiate_nft_listing c seller nft price md uuidHex
        now).2.transaction_history) := by
  refine ⟨?_, ?_, ?_, ?_⟩
  · intro tx h hterm
    rw [process_transaction_terminal handler now fuel c i tx h hterm]
    refine ⟨by simp, assocFind_erase_self _ i, ?_⟩
    have hnone : assocFind (assocErase c.active_transactions i) i =
        none := assocFind_erase_self _ i
    have := cancel_transaction_not_found
      { c with
          active_transactions := assocErase c.active_transactions i,
          transaction_history := c.transaction_history ++
            [processLoop handler now fuel
              { tx with status := TransactionStatus.executing,
                        updated_at := now }] } i reason now hnone
    rw [this]
    exact ⟨rfl, rfl⟩
  · intro tx h ht
    rw [cancel_transaction_live c i reason now tx h ht]
    exact ⟨assocFind_erase_self _ i, by simp⟩
  · intro h
    exact ⟨cancel_transaction_not_found c i reason now h,
      process_transaction_not_found handler now fuel c i h⟩
  · intro t htmem
    refine ⟨?_, ?_, ?_, ?_⟩
    · cases h : assocFind c.active_transactions i with
      | none =>
        rw [process_transaction_not_found handler now fuel c i h]
        exact htmem
      | some tx =>
        by_cases hterm : (processLoop handler now fuel
            { tx with status := TransactionStatus.executing,
                      updated_at := now }).status =
              TransactionStatus.completed ∨
          (processLoop handler now fuel
            { tx with status := TransactionStatus.executing,
                      updated_at := now }).status =
              TransactionStatus.failed
        · rw [process_transaction_terminal handler now fuel c i tx h
            hterm]
          exact List.mem_append_left _ htmem
        · rw [process_transaction_nonterminal handler now fuel c i tx h
            hterm]
          exact htmem
    · cases h : assocFind c.active_transactions i with
      | none =>
        rw [cancel_transaction_not_found c i reason now h]
        exact htmem
      | some tx =>
        by_cases ht : tx.status = TransactionStatus.completed ∨
            tx.status = TransactionStatus.failed
        · rw [cancel_transaction_terminal c i reason now tx h ht]
          exact htmem
        · rw [cancel_transaction_live c i reason now tx h ht]
          exact List.mem_append_left _ htmem
    · exact htmem
    · exact htmem

/-- Closed instance of `C5_terminal_transactions_immutable`: the purchase
transaction run to completion lands in history, stays there, and a later
cancel on its id fails without touching the state. -/
theorem C5_terminal_transactions_immutable_witness :
    processLoop handlerOkW "t1" 5
        { purchaseTxW with status := TransactionStatus.executing,
                           updated_at := "t1" } ∈
      (process_transaction handlerOkW "t1" 5 coordW
        "tx_abc").transaction_history ∧
    assocFind (process_transaction handlerOkW "t1" 5 coordW
      "tx_abc").active_transactions "tx_abc" = none ∧
    (cancel_transaction (process_transaction handlerOkW "t1" 5 coordW
      "tx_abc") "tx_abc" "r" "t1").1 = false ∧
    (cancel_transaction (process_transaction handlerOkW "t1" 5 coordW
        "tx_abc") "tx_abc" "r" "t1").2 =
      process_transaction handlerOkW "t1" 5 coordW "tx_abc" :=
  (C5_terminal_transactions_immutable handlerOkW "t1" "r" "u" "B" "S"
      "X" 100 none 5 coordW "tx_abc").1
    purchaseTxW (by rfl) (Or.inl (by decide))

/-! ## Claim C6: progress under acyclic dependencies -/

/-- Number of `pending` steps. -/
def pendingCount (steps : List TransactionStep) : Nat :=
  (steps.filter (fun s => s.status = TransactionStatus.pending)).length

/-- Step statuses stay within the three values the loop can produce. -/
def statusWellFormed (steps : List TransactionStep) : Prop :=
  ∀ s ∈ steps, s.status = TransactionStatus.pending ∨
    s.status = TransactionStatus.completed ∨
    s.status = TransactionStatus.failed

instance (steps : List TransactionStep) :
    Decidable (statusWellFormed steps) :=
  inferInstanceAs (Decidable (∀ s ∈ steps,
    s.status = TransactionStatus.pending ∨
    s.status = TransactionStatus.completed ∨
    s.status = TransactionStatus.failed))

/-- Every listed dependency id refers to some step of the plan. -/
def depsClosed (steps : List TransactionStep) : Prop :=
  ∀ s ∈ steps, ∀ d ∈ s.dependencies, ∃ t ∈ steps, t.step_id = d

instance (steps : List TransactionStep) :
    Decidable (depsClosed steps) :=
  inferInstanceAs (Decidable (∀ s ∈ steps, ∀ d ∈ s.dependencies,
    ∃ t ∈ steps, t.step_id = d))

/-- A ranking certificate of acyclicity: every listed dependency has
strictly smaller rank than its dependent step. -/
def rankDecreasing (rank : String → Nat)
    (steps : List TransactionStep) : Prop :=
  ∀ s ∈ steps, ∀ d ∈ s.dependencies, rank d < rank s.step_id

instance (rank : String → Nat) (steps : List TransactionStep) :
    Decidable (rankDecreasing rank steps) :=
  inferInstanceAs (Decidable (∀ s ∈ steps, ∀ d ∈ s.dependencies,
    rank d < rank s.step_id))

lemma exists_min_image {α : Type} (f : α → Nat) (l : List α)
    (hne : ¬ l = []) : ∃ a ∈ l, ∀ b ∈ l, f a ≤ f b := by
  induction l with
  | nil => exact absurd rfl hne
  | cons x xs ih =>
    by_cases hxs : xs = []
    · subst hxs
      exact ⟨x, by simp, by simp⟩
    · obtain ⟨a, ha, hmin⟩ := ih hxs
      by_cases hfa : f x ≤ f a
      · refine ⟨x, by simp, ?_⟩
        intro b hb
        rcases List.mem_cons.mp hb with rfl | hb
        · exact le_refl _
        · exact le_trans hfa (hmin b hb)
      · refine ⟨a, by simp [ha], ?_⟩
        intro b hb
        rcases List.mem_cons.mp hb with rfl | hb
        · omega
        · exact hmin b hb

lemma exists_min_rank_pending (rank : String → Nat)
    (steps : List TransactionStep)
    (h : ∃ s ∈ steps, s.status = TransactionStatus.pending) :
    ∃ s ∈ steps, s.status = TransactionStatus.pending ∧
      ∀ t ∈ steps, t.status = TransactionStatus.pending →
        rank s.step_id ≤ rank t.step_id := by
  obtain ⟨s0, hs0, hp0⟩ := h
  have hne : ¬ (steps.filter
      (fun s => s.status = TransactionStatus.pending)) = [] := by
    rw [filter_ne_nil_iff]
    exact ⟨s0, hs0, by simp [hp0]⟩
  obtain ⟨a, ha, hmin⟩ :=
    exists_min_image (fun s => rank s.step_id) _ hne
  rw [List.mem_filter] at ha
  refine ⟨a, ha.1, by simpa using ha.2, ?_⟩
  intro t ht htp
  exact hmin t (List.mem_filter.mpr ⟨ht, by simp [htp]⟩)

/-- With well-formed statuses, closed dependencies, an acyclicity
certificate and no failed step, a pending step guarantees a non-empty
ready set (the loop never stalls). -/
lemma ready_nonempty_of_pending (tx : Transaction)
    (rank : String → Nat) (hwf : statusWellFormed tx.steps)
    (hcl : depsClosed tx.steps) (hrk : rankDecreasing rank tx.steps)
    (hnofail : (tx.steps.filter
      (fun s => s.status = TransactionStatus.failed)) = [])
    (hpend : ∃ s ∈ tx.steps, s.status = TransactionStatus.pending) :
    ¬ tx.get_next_pending_steps = [] := by
  obtain ⟨s, hs, hsp, hmin⟩ := exists_min_rank_pending rank tx.steps
    hpend
  intro hempty
  have hsready : stepReady tx.steps s = true := by
    rw [stepReady_iff]
    refine ⟨hsp, ?_⟩
    intro d hd
    obtain ⟨t, ht, htid⟩ := hcl s hs d hd
    rcases hwf t ht with htp | htc | htf
    · have h1 := hmin t ht htp
      have h2 := hrk s hs d hd
      rw [htid] at h1
      omega
    · exact (mem_completedStepIds tx.steps d).mpr ⟨t, ht, htid, htc⟩
    · have : t ∈ tx.steps.filter
          (fun u => u.status = TransactionStatus.failed) :=
        List.mem_filter.mpr ⟨ht, by simp [htf]⟩
      rw [hnofail] at this
      exact absurd this (by simp)
  have : s ∈ tx.get_next_pending_steps :=
    (mem_get_next_pending_steps tx s).mpr ⟨hs, hsready⟩
  rw [hempty] at this
  exact absurd this (by simp)

lemma pending_map_split (handler : Handler) (now : String)
    (S0 : List TransactionStep) (S : List TransactionStep) :
    ((S.map (fun s => if stepReady S0 s then
        applyStepResult now s (handler s) else s)).filter
      (fun s => s.status = TransactionStatus.pending)).length +
      (S.filter (fun s => stepReady S0 s)).length =
    (S.filter (fun s => s.status = TransactionStatus.pending)).length
    := by
  induction S with
  | nil => rfl
  | cons x xs ih =>
    by_cases hr : stepReady S0 x = true
    · have hxp := stepReady_pending hr
      have hnp : ¬ ((applyStepResult now x (handler x)).status =
          TransactionStatus.pending) := by
        rcases applyStepResult_status now x (handler x) with h | h <;>
          simp [h]
      simp only [List.map_cons, List.filter_cons]
      simp [hr, hxp, hnp]
      omega
    · by_cases hxp : x.status = TransactionStatus.pending
      · simp only [List.map_cons, List.filter_cons]
        simp [hr, hxp]
        omega
      · simp only [List.map_cons, List.filter_cons]
        simp [hr, hxp]
        omega

/-- A round executed on a non-empty ready set strictly decreases the
number of pending steps. -/
lemma iter_pendingCount_lt (handler : Handler) (now : String)
    (tx : Transaction) (hready : ¬ tx.get_next_pending_steps = []) :
    pendingCount (execute_transaction_steps handler now tx
        tx.get_next_pending_steps).steps <
      pendingCount tx.steps := by
  have hsplit := pending_map_split handler now tx.steps tx.steps
  have hpos : 0 < (tx.steps.filter
      (fun s => stepReady tx.steps s)).length := by
    rcases Nat.eq_zero_or_pos (tx.steps.filter
        (fun s => stepReady tx.steps s)).length with h0 | hpos
    · exact absurd (List.eq_nil_of_length_eq_zero h0) hready
    · exact hpos
  unfold pendingCount
  rw [execute_ready_steps_eq]
  omega

lemma iterFun_step_id (handler : Handler) (now : String)
    (S0 : List TransactionStep) (t : TransactionStep) :
    ((fun s => if stepReady S0 s then applyStepResult now s (handler s)
      else s) t).step_id = t.step_id := by
  by_cases h : stepReady S0 t <;> simp [h, applyStepResult_step_id]

lemma iterFun_dependencies (handler : Handler) (now : String)
    (S0 : List TransactionStep) (t : TransactionStep) :
    ((fun s => if stepReady S0 s then applyStepResult now s (handler s)
      else s) t).dependencies = t.dependencies := by
  by_cases h : stepReady S0 t <;> simp [h, applyStepResult_dependencies]

lemma iter_statusWellFormed (handler : Handler) (now : String)
    (tx : Transaction) (h : statusWellFormed tx.steps) :
    statusWellFormed (execute_transaction_steps handler now tx
      tx.get_next_pending_steps).steps := by
  rw [execute_ready_steps_eq]
  intro s' hs'
  obtain ⟨s, hs, rfl⟩ := List.mem_map.mp hs'
  by_cases hr : stepReady tx.steps s
  · rw [if_pos hr]
    rcases applyStepResult_status now s (handler s) with hc | hf
    · exact Or.inr (Or.inl hc)
    · exact Or.inr (Or.inr hf)
  · rw [if_neg hr]
    exact h s hs

lemma iter_depsClosed (handler : Handler) (now : String)
    (tx : Transaction) (h : depsClosed tx.steps) :
    depsClosed (execute_transaction_steps handler now tx
      tx.get_next_pending_steps).steps := by
  rw [execute_ready_steps_eq]
  intro s' hs' d hd
  obtain ⟨s, hs, rfl⟩ := List.mem_map.mp hs'
  rw [iterFun_dependencies] at hd
  obtain ⟨t, ht, htid⟩ := h s hs d hd
  refine ⟨(fun s => if stepReady tx.steps s then
    applyStepResult now s (handler s) else s) t,
    List.mem_map_of_mem _ ht, ?_⟩
  rw [iterFun_step_id]
  exact htid

lemma iter_rankDecreasing (handler : Handler) (now : String)
    (rank : String → Nat) (tx : Transaction)
    (h : rankDecreasing rank tx.steps) :
    rankDecreasing rank (execute_transaction_steps handler now tx
      tx.get_next_pending_steps).steps := by
  rw [execute_ready_steps_eq]
  intro s' hs' d hd
  obtain ⟨s, hs, rfl⟩ := List.mem_map.mp hs'
  rw [iterFun_dependencies] at hd
  rw [iterFun_step_id]
  exact h s hs d hd

/-- Main induction: `pendingCount + 1` units of fuel always reach a
terminal status. -/
lemma processLoop_terminates (handler : Handler) (now : String)
    (rank : String → Nat) :
    ∀ (n : Nat) (tx : Transaction),
      tx.status = TransactionStatus.executing →
      statusWellFormed tx.steps → depsClosed tx.steps →
      rankDecreasing rank tx.steps →
      pendingCount tx.steps ≤ n →
      (processLoop handler now (n + 1) tx).status =
          TransactionStatus.completed ∨
        (processLoop handler now (n + 1) tx).status =
          TransactionStatus.failed := by
  intro n
  induction n with
  | zero =>
    intro tx hexec hwf hcl hrk hcount
    have hnopending : ∀ s ∈ tx.steps,
        ¬ s.status = TransactionStatus.pending := by
      have h0 : (tx.steps.filter
          (fun s => s.status = TransactionStatus.pending)) = [] :=
        List.eq_nil_of_length_eq_zero (Nat.le_zero.mp hcount)
      intro s hs hp
      have : s ∈ tx.steps.filter
          (fun u => u.status = TransactionStatus.pending) :=
        List.mem_filter.mpr ⟨hs, by simp [hp]⟩
      rw [h0] at this
      exact absurd this (by simp)
    have hready : tx.get_next_pending_steps = [] := by
      by_cases h : tx.get_next_pending_steps = []
      · exact h
      · obtain ⟨s, hsmem⟩ := List.exists_mem_of_ne_nil _ h
        obtain ⟨hs, hr⟩ := (mem_get_next_pending_steps tx s).mp hsmem
        exact absurd (stepReady_pending hr) (hnopending s hs)
    by_cases hfail : (tx.steps.filter
        (fun s => s.status = TransactionStatus.failed)) = []
    · have hallc : ∀ s ∈ tx.steps,
          s.status = TransactionStatus.completed := by
        intro s hs
        rcases hwf s hs with hp | hc | hf
        · exact absurd hp (hnopending s hs)
        · exact hc
        · exfalso
          have : s ∈ tx.steps.filter
              (fun u => u.status = TransactionStatus.failed) :=
            List.mem_filter.mpr ⟨hs, by simp [hf]⟩
          rw [hfail] at this
          exact absurd this (by simp)
      have hlen : (tx.steps.filter
          (fun s => s.status = TransactionStatus.completed)).length
            = tx.steps.length :=
        (length_filter_eq_length_iff _ _).mpr
          (fun s hs => by simp [hallc s hs])
      rw [processLoop_completed_branch handler now 0 tx hexec hready
        hfail hlen]
      exact Or.inl rfl
    · rw [processLoop_failed_branch handler now 0 tx hexec hready hfail]
      exact Or.inr rfl
  | succ n ih =>
    intro tx hexec hwf hcl hrk hcount
    by_cases hready : tx.get_next_pending_steps = []
    · by_cases hfail : (tx.steps.filter
          (fun s => s.status = TransactionStatus.failed)) = []
      · by_cases hlen : (tx.steps.filter
            (fun s => s.status = TransactionStatus.completed)).length
              = tx.steps.length
        · rw [processLoop_completed_branch handler now (n + 1) tx hexec
            hready hfail hlen]
          exact Or.inl rfl
        · exfalso
          have hpend : ∃ s ∈ tx.steps,
              s.status = TransactionStatus.pending := by
            have := (not_iff_not.mpr
              (length_filter_eq_length_iff
                (fun s => decide
                  (s.status = TransactionStatus.completed))
                tx.steps)).mp hlen
            push_neg at this
            obtain ⟨s, hs, hnc⟩ := this
            rcases hwf s hs with hp | hc | hf
            · exact ⟨s, hs, hp⟩
            · exact absurd (by simp [hc]) hnc
            · exfalso
              have : s ∈ tx.steps.filter
                  (fun u => u.status = TransactionStatus.failed) :=
                List.mem_filter.mpr ⟨hs, by simp [hf]⟩
              rw [hfail] at this
              exact absurd this (by simp)
          exact ready_nonempty_of_pending tx rank hwf hcl hrk hfail
            hpend hready
      · rw [processLoop_failed_branch handler now (n + 1) tx hexec
          hready hfail]
        exact Or.inr rfl
    · rw [processLoop_exec_branch handler now (n + 1) tx hexec hready]
      have hlt := iter_pendingCount_lt handler now tx hready
      exact ih _ hexec (iter_statusWellFormed handler now tx hwf)
        (iter_depsClosed handler now tx hcl)
        (iter_rankDecreasing handler now rank tx hrk)
        (by
          show pendingCount (execute_transaction_steps handler now tx
            tx.get_next_pending_steps).steps ≤ n
          omega)

/-- Counterexample to C6 as stated: a one-step acyclic transaction is not
terminal after one loop iteration (one iteration per step is not enough;
the terminal transition needs one extra pass). -/
theorem C6_progress_counterexample :
    oneStepTxW.steps.length = 1 ∧
    oneStepTxW.status = TransactionStatus.executing ∧
    statusWellFormed oneStepTxW.steps ∧
    depsClosed oneStepTxW.steps ∧
    rankDecreasing (fun _ => 0) oneStepTxW.steps ∧
    ¬ ((processLoop handlerOkW "t1" 1 oneStepTxW).status =
        TransactionStatus.completed ∨
      (processLoop handlerOkW "t1" 1 oneStepTxW).status =
        TransactionStatus.failed) := by
  refine ⟨by decide, by decide, by decide, by decide, ?_, by decide⟩
  intro s hs d hd
  rcases List.mem_singleton.mp hs with rfl
  exact absurd hd (List.not_mem_nil d)

/-- C6 (amended): for an `executing` transaction whose step statuses lie
in the three loop-reachable values, whose dependency ids all refer to
plan steps, and whose dependency graph admits a decreasing rank
(acyclicity), the loop reaches `completed` or `failed` within
`steps.length + 1` iterations — at most one iteration per step plus the
final pass that performs the terminal status transition. -/
theorem C6_progress_amended (handler : Handler) (now : String)
    (tx : Transaction)
    (hexec : tx.status = TransactionStatus.executing)
    (hwf : statusWellFormed tx.steps) (hcl : depsClosed tx.steps)
    (hacyc : ∃ rank : String → Nat, rankDecreasing rank tx.steps) :
    (processLoop handler now (tx.steps.length + 1) tx).status =
        TransactionStatus.completed ∨
      (processLoop handler now (tx.steps.length + 1) tx).status =
        TransactionStatus.failed := by
  obtain ⟨rank, hrk⟩ := hacyc
  exact processLoop_terminates handler now rank tx.steps.length tx
    hexec hwf hcl hrk (List.length_filter_le _ _)

/-- Rank certificate for the 5-step purchase plan. -/
def purchaseRankW : String → Nat := fun d =>
  if d = "tx_abc_step_3" then 1
  else if d = "tx_abc_step_4" then 2
  else if d = "tx_abc_step_5" then 3
  else 0

/-- Closed instance of `C6_progress_amended`: the concrete purchase plan
reaches a terminal status within `5 + 1` iterations. -/
theorem C6_progress_amended_witness :
    (processLoop handlerOkW "t1"
        (purchaseTxExecW.steps.length + 1) purchaseTxExecW).status =
        TransactionStatus.completed ∨
      (processLoop handlerOkW "t1"
        (purchaseTxExecW.steps.length + 1) purchaseTxExecW).status =
        TransactionStatus.failed :=
  C6_progress_amended handlerOkW "t1" purchaseTxExecW (by decide)
    (by decide) (by decide) ⟨purchaseRankW, by decide⟩

/-! ## Claim C7: save/load round trip -/

/-- Statuses routed to the active dict by `_load_transaction_data`. -/
def isActiveStatus (st : TransactionStatus) : Bool :=
  st = TransactionStatus.pending ∨ st = TransactionStatus.executing

lemma ofString_value (st : TransactionStatus) :
    TransactionStatus.ofString st.value = some st := by
  cases st <;> rfl

lemma type_ofString_value (ty : TransactionType) :
    TransactionType.ofString ty.value = some ty := by
  cases ty <;> rfl

lemma parseStep_serializeStep (s : TransactionStep) :
    parseStep (serializeStep s) = some s := by
  simp [parseStep, serializeStep, ofString_value]

lemma parseSteps_serialize (l : List TransactionStep) :
    parseSteps (l.map serializeStep) = some l := by
  induction l with
  | nil => rfl
  | cons x xs ih =>
    rw [List.map_cons, parseSteps, parseStep_serializeStep, ih]

lemma parseTx_serializeTx (tx : Transaction) :
    parseTx (serializeTx tx) = some tx := by
  unfold parseTx serializeTx
  rw [type_ofString_value, ofString_value, parseSteps_serialize]

lemma assocSet_fresh {α : Type} (d : List (String × α)) (k : String)
    (v : α) (h : ¬ ∃ p ∈ d, p.1 = k) :
    assocSet d k v = d ++ [(k, v)] := by
  unfold assocSet
  rw [if_neg]
  intro hany
  obtain ⟨p, hp, hpk⟩ := List.any_eq_true.mp hany
  exact h ⟨p, hp, by simpa using hpk⟩

lemma loadLoop_cons_active (d : TxData) (rest : List TxData)
    (acc : TransactionCoordinator) (tx : Transaction)
    (hp : parseTx d = some tx)
    (hact : tx.status = TransactionStatus.pending ∨
      tx.status = TransactionStatus.executing) :
    loadLoop (d :: rest) acc = loadLoop rest
      { acc with active_transactions :=
          assocSet acc.active_transactions tx.transaction_id tx } := by
  rw [loadLoop, hp]
  show (if tx.status = TransactionStatus.pending ∨
      tx.status = TransactionStatus.executing then
    loadLoop rest
      { acc with active_transactions :=
          assocSet acc.active_transactions tx.transaction_id tx }
    else loadLoop rest
      { acc with transaction_history :=
          acc.transaction_history ++ [tx] }) = _
  rw [if_pos hact]

lemma loadLoop_cons_history (d : TxData) (rest : List TxData)
    (acc : TransactionCoordinator) (tx : Transaction)
    (hp : parseTx d = some tx)
    (hact : ¬ (tx.status = TransactionStatus.pending ∨
      tx.status = TransactionStatus.executing)) :
    loadLoop (d :: rest) acc = loadLoop rest
      { acc with transaction_history :=
          acc.transaction_history ++ [tx] } := by
  rw [loadLoop, hp]
  show (if tx.status = TransactionStatus.pending ∨
      tx.status = TransactionStatus.executing then
    loadLoop rest
      { acc with active_transactions :=
          assocSet acc.active_transactions tx.transaction_id tx }
    else loadLoop rest
      { acc with transaction_history :=
          acc.transaction_history ++ [tx] }) = _
  rw [if_neg hact]

/-- Inductive core of the reload argument: feeding serialised
transactions into the load loop produces, up to permutation, the
accumulator's transactions followed by the fed ones — provided active
ids are fresh (the dict insert never overwrites). -/
lemma loadLoop_serialized (L : List Transaction) :
    ∀ acc : TransactionCoordinator,
      (∀ t ∈ L, isActiveStatus t.status = true →
        ¬ ∃ p ∈ acc.active_transactions, p.1 = t.transaction_id) →
      ((L.filter (fun t => isActiveStatus t.status)).map
        (fun t => t.transaction_id)).Nodup →
      List.Perm (allTransactions (loadLoop (L.map serializeTx) acc))
        (allTransactions acc ++ L) := by
  induction L with
  | nil => intro acc _ _; simp [loadLoop]
  | cons tx rest ih =>
    intro acc hfresh hnd
    rw [List.map_cons]
    by_cases hact : tx.status = TransactionStatus.pending ∨
        tx.status = TransactionStatus.executing
    · rw [loadLoop_cons_active (serializeTx tx) _ acc tx
        (parseTx_serializeTx tx) hact]
      have hactb : isActiveStatus tx.status = true := by
        simp [isActiveStatus, hact]
      have hset : assocSet acc.active_transactions tx.transaction_id tx
          = acc.active_transactions ++ [(tx.transaction_id, tx)] :=
        assocSet_fresh _ _ _ (hfresh tx (by simp) hactb)
      rw [hset]
      have hfilter : (tx :: rest).filter
          (fun t => isActiveStatus t.status) =
        tx :: rest.filter (fun t => isActiveStatus t.status) := by
        rw [List.filter_cons, if_pos hactb]
      rw [hfilter, List.map_cons, List.nodup_cons] at hnd
      have hfresh' : ∀ t ∈ rest, isActiveStatus t.status = true →
          ¬ ∃ p ∈ acc.active_transactions ++
            [(tx.transaction_id, tx)], p.1 = t.transaction_id := by
        intro t ht htb
        rintro ⟨p, hp, hpk⟩
        rcases List.mem_append.mp hp with hp1 | hp2
        · exact hfresh t (by simp [ht]) htb ⟨p, hp1, hpk⟩
        · have hptx : p = (tx.transaction_id, tx) := by simpa using hp2
          rw [hptx] at hpk
          have hpk2 : tx.transaction_id = t.transaction_id := hpk
          refine hnd.1 ?_
          rw [hpk2]
          exact List.mem_map_of_mem _ (List.mem_filter.mpr ⟨ht, htb⟩)
      have hperm := ih { acc with active_transactions :=
          acc.active_transactions ++ [(tx.transaction_id, tx)] }
        hfresh' hnd.2
      refine hperm.trans ?_
      have hform : allTransactions { acc with active_transactions :=
          acc.active_transactions ++ [(tx.transaction_id, tx)] } ++
            rest =
        acc.active_transactions.map (fun p => p.2) ++
          (tx :: (acc.transaction_history ++ rest)) := by
        simp [allTransactions]
      have hform2 : allTransactions acc ++ tx :: rest =
          acc.active_transactions.map (fun p => p.2) ++
            (acc.transaction_history ++ tx :: rest) := by
        simp [allTransactions]
      rw [hform, hform2]
      exact List.Perm.append_left _ List.perm_middle.symm
    · rw [loadLoop_cons_history (serializeTx tx) _ acc tx
        (parseTx_serializeTx tx) hact]
      have hactb : ¬ isActiveStatus tx.status = true := by
        simp [isActiveStatus, hact]
      have hfilter : (tx :: rest).filter
          (fun t => isActiveStatus t.status) =
        rest.filter (fun t => isActiveStatus t.status) := by
        rw [List.filter_cons, if_neg hactb]
      rw [hfilter] at hnd
      have hfresh' : ∀ t ∈ rest, isActiveStatus t.status = true →
          ¬ ∃ p ∈ acc.active_transactions, p.1 = t.transaction_id := by
        intro t ht htb
        exact hfresh t (by simp [ht]) htb
      have hperm := ih { acc with transaction_history :=
          acc.transaction_history ++ [tx] } hfresh' hnd
      refine hperm.trans ?_
      have hform : allTransactions { acc with transaction_history :=
          acc.transaction_history ++ [tx] } ++ rest =
        allTransactions acc ++ tx :: rest := by
        simp [allTransactions]
      rw [hform]

/-- C7: saving the working set and reloading it reproduces the same
multiset of transactions (ids, statuses, step graphs and all other
fields), and loading from a missing store yields the empty coordinator.
The only proviso is that active-status transactions carry distinct ids,
which holds for the id-keyed working set. -/
theorem C7_save_load_roundtrip (c : TransactionCoordinator)
    (hnd : (((allTransactions c).filter
      (fun t => isActiveStatus t.status)).map
        (fun t => t.transaction_id)).Nodup) :
    List.Perm (allTransactions (loadData (some (saveData c))))
      (allTransactions c) ∧
    loadData none = ({} : TransactionCoordinator) := by
  constructor
  · have h0 : ∀ t ∈ allTransactions c, isActiveStatus t.status = true →
        ¬ ∃ p ∈ ({} : TransactionCoordinator).active_transactions,
          p.1 = t.transaction_id := by
      intro t _ _ hex
      obtain ⟨p, hp, _⟩ := hex
      exact absurd hp (List.not_mem_nil p)
    have hperm := loadLoop_serialized (allTransactions c) {} h0 hnd
    have h1 : allTransactions ({} : TransactionCoordinator) ++
        allTransactions c = allTransactions c := by
      simp [allTransactions]
    rw [h1] at hperm
    exact hperm
  · rfl

/-- Closed instance of `C7_save_load_roundtrip` on the concrete
coordinator holding the freshly initiated purchase. -/
theorem C7_save_load_roundtrip_witness :
    List.Perm (allTransactions (loadData (some (saveData coordW))))
      (allTransactions coordW) ∧
    loadData none = ({} : TransactionCoordinator) :=
  C7_save_load_roundtrip coordW (by decide)

/-! ## Claim C8: shape of the purchase plan -/

lemma assocFind_cons {α : Type} (p : String × α)
    (l : List (String × α)) (k : String) :
    assocFind (p :: l) k =
      if p.1 = k then some p.2 else assocFind l k := by
  by_cases hp : p.1 = k <;> simp [assocFind, List.find?_cons, hp]

lemma assocFind_set_self {α : Type} (d : List (String × α))
    (k : String) (v : α) :
    assocFind (assocSet d k v) k = some v := by
  induction d with
  | nil => simp [assocSet, assocFind]
  | cons p rest ih =>
    by_cases hp : p.1 = k
    · have h1 : assocSet (p :: rest) k v =
          (k, v) :: rest.map (fun q => if q.1 = k then (k, v) else q)
          := by
        simp [assocSet, hp]
      rw [h1, assocFind_cons]
      simp
    · have h2 : assocSet (p :: rest) k v = p :: assocSet rest k v := by
        by_cases hrest : rest.any (fun q => q.1 = k)
        · simp [assocSet, hp, hrest]
        · simp [assocSet, hp, hrest]
      rw [h2, assocFind_cons, if_neg hp]
      exact ih

/-- C8: every purchase initiation registers, under the returned id, a
transaction in `pending` status holding exactly the five-step plan with
the documented actions, step ids, dependency graph, and all steps
`pending`. -/
theorem C8_purchase_plan_shape (c : TransactionCoordinator)
    (buyer seller nft : String) (price : ℚ) (md : Option MDict)
    (uuidHex now : String) :
    ∃ tx, assocFind
        (initiate_nft_purchase c buyer seller nft price md uuidHex
          now).2.active_transactions
        (initiate_nft_purchase c buyer seller nft price md uuidHex
          now).1 = some tx ∧
      tx.steps.length = 5 ∧
      tx.status = TransactionStatus.pending ∧
      tx.steps.map (fun s => s.status) =
        [TransactionStatus.pending, TransactionStatus.pending,
         TransactionStatus.pending, TransactionStatus.pending,
         TransactionStatus.pending] ∧
      tx.steps.map (fun s => s.action) =
        ["verify_valuation", "verify_authenticity", "setup_escrow",
         "execute_transfer", "finalize_transaction"] ∧
      tx.steps.map (fun s => s.step_id) =
        ["tx_" ++ uuidHex ++ "_step_1", "tx_" ++ uuidHex ++ "_step_2",
         "tx_" ++ uuidHex ++ "_step_3", "tx_" ++ uuidHex ++ "_step_4",
         "tx_" ++ uuidHex ++ "_step_5"] ∧
      tx.steps.map (fun s => s.dependencies) =
        [[], [],
         ["tx_" ++ uuidHex ++ "_step_1", "tx_" ++ uuidHex ++ "_step_2"],
         ["tx_" ++ uuidHex ++ "_step_3"],
         ["tx_" ++ uuidHex ++ "_step_4"]] :=
  ⟨_, assocFind_set_self c.active_transactions ("tx_" ++ uuidHex) _,
    rfl, rfl, rfl, rfl, rfl, rfl⟩

/-! ## Claim C9: content of the status snapshot -/

/-- The purchase transaction with a non-trivial metadata mapping. -/
def purchaseTxMetaW : Transaction :=
  { purchaseTxW with metadata := [("note", PAtom.str "hi")] }

/-- Coordinator holding the metadata-free purchase transaction. -/
def coordPlainW : TransactionCoordinator :=
  { active_transactions := [("tx_abc", purchaseTxW)],
    transaction_history := [] }

/-- Coordinator identical except for the transaction's metadata. -/
def coordMetaW : TransactionCoordinator :=
  { active_transactions := [("tx_abc", purchaseTxMetaW)],
    transaction_history := [] }

/-- Counterexample to C9 as stated: two transactions that differ only in
their `metadata` mapping produce identical status-query results, so the
query does not return the transaction's metadata. -/
theorem C9_status_metadata_counterexample :
    ¬ purchaseTxMetaW.metadata = purchaseTxW.metadata ∧
    ¬ purchaseTxMetaW = purchaseTxW ∧
    get_transaction_status coordMetaW "tx_abc" =
      get_transaction_status coordPlainW "tx_abc" ∧
    (get_transaction_status coordPlainW "tx_abc").isSome = true :=
  ⟨by decide,
   fun h => absurd (congrArg Transaction.metadata h) (by decide),
   rfl, rfl⟩

/-- C9 (amended): the status query returns `none` exactly when the id is
absent from both the active set and the history; when the id is found
(in the active set, or else first match in history) it returns a snapshot
carrying the status string, `completed/total` progress, percentage,
ready-step summaries and the other transaction fields — but not the
transaction's `metadata` mapping. -/
theorem C9_status_query (c : TransactionCoordinator) (i : String) :
    (get_transaction_status c i = none ↔
      assocFind c.active_transactions i = none ∧
      ∀ t ∈ c.transaction_history, ¬ t.transaction_id = i) ∧
    (∀ tx, (assocFind c.active_transactions i = some tx ∨
        (assocFind c.active_transactions i = none ∧
          c.transaction_history.find?
            (fun t => t.transaction_id = i) = some tx)) →
      ∃ info, get_transaction_status c i = some info ∧
        info.transaction_id = tx.transaction_id ∧
        info.type = tx.transaction_type.value ∧
        info.status = tx.status.value ∧
        info.progress = toString (tx.steps.filter
            (fun s => s.status = TransactionStatus.completed)).length
          ++ "/" ++ toString tx.steps.length ∧
        info.progress_percentage =
          (((tx.steps.filter (fun s =>
            s.status = TransactionStatus.completed)).length : ℚ) /
              (tx.steps.length : ℚ)) * 100 ∧
        info.next_steps = tx.get_next_pending_steps.map (fun step =>
          { step_id := step.step_id, agent := step.agent_address,
            action := step.action, status := step.status.value }) ∧
        info.participants = tx.participants ∧
        info.total_value = tx.total_value ∧
        info.fees = tx.fees ∧
        info.created_at = tx.created_at ∧
        info.updated_at = tx.updated_at ∧
        info.completed_at = tx.completed_at) := by
  constructor
  · constructor
    · intro hnone
      cases h : assocFind c.active_transactions i with
      | some tx =>
        exfalso
        have hsome : get_transaction_status c i =
            some (statusSnapshot tx) := by
          unfold get_transaction_status lookupTransaction
          rw [h]
          rfl
        rw [hsome] at hnone
        exact absurd hnone (by simp)
      | none =>
        refine ⟨rfl, ?_⟩
        intro t ht hti
        cases hf : c.transaction_history.find?
            (fun u => u.transaction_id = i) with
        | some tx2 =>
          have hsome : get_transaction_status c i =
              some (statusSnapshot tx2) := by
            unfold get_transaction_status lookupTransaction
            rw [h, hf]
            rfl
          rw [hsome] at hnone
          exact absurd hnone (by simp)
        | none =>
          have hne := List.find?_eq_none.mp hf t ht
          simp only [decide_eq_true_eq] at hne
          exact hne hti
    · rintro ⟨h, hall⟩
      have hf : c.transaction_history.find?
          (fun u => u.transaction_id = i) = none :=
        List.find?_eq_none.mpr (by
          intro t ht
          simpa using hall t ht)
      unfold get_transaction_status lookupTransaction
      rw [h, hf]
      rfl
  · intro tx hfound
    have hlook : lookupTransaction c i = some tx := by
      unfold lookupTransaction
      rcases hfound with h | ⟨h, hf⟩
      · rw [h]
      · rw [h, hf]
    refine ⟨statusSnapshot tx, ?_, rfl, rfl, rfl, rfl, rfl, rfl, rfl,
      rfl, rfl, rfl, rfl, rfl⟩
    unfold get_transaction_status
    rw [hlook]
    rfl

/-- Closed instance of `C9_status_query` on the concrete coordinator. -/
theorem C9_status_query_witness :
    ∃ info, get_transaction_status coordPlainW "tx_abc" = some info ∧
      info.transaction_id = purchaseTxW.transaction_id ∧
      info.type = purchaseTxW.transaction_type.value ∧
      info.status = purchaseTxW.status.value ∧
      info.progress = toString (purchaseTxW.steps.filter
          (fun s => s.status = TransactionStatus.completed)).length
        ++ "/" ++ toString purchaseTxW.steps.length ∧
      info.progress_percentage =
        (((purchaseTxW.steps.filter (fun s =>
          s.status = TransactionStatus.completed)).length : ℚ) /
            (purchaseTxW.steps.length : ℚ)) * 100 ∧
      info.next_steps = purchaseTxW.get_next_pending_steps.map
        (fun step =>
          { step_id := step.step_id, agent := step.agent_address,
            action := step.action, status := step.status.value }) ∧
      info.participants = purchaseTxW.participants ∧
      info.total_value = purchaseTxW.total_value ∧
      info.fees = purchaseTxW.fees ∧
      info.created_at = purchaseTxW.created_at ∧
      info.updated_at = purchaseTxW.updated_at ∧
      info.completed_at = purchaseTxW.completed_at :=
  (C9_status_query coordPlainW "tx_abc").2 purchaseTxW
    (Or.inl (by rfl))

/-! ## Claim C10: step statuses stay in the three-value range -/

/-- The whole loop keeps step statuses within
`{pending, completed, failed}`. -/
lemma processLoop_statusWellFormed (handler : Handler) (now : String) :
    ∀ (fuel : Nat) (tx : Transaction),
      statusWellFormed tx.steps →
      statusWellFormed (processLoop handler now fuel tx).steps := by
  intro fuel
  induction fuel with
  | zero => intro tx h; exact h
  | succ n ih =>
    intro tx h
    by_cases hex : tx.status = TransactionStatus.executing
    · by_cases hready : tx.get_next_pending_steps = []
      · by_cases hfail : (tx.steps.filter
            (fun s => s.status = TransactionStatus.failed)) = []
        · by_cases hlen : (tx.steps.filter
              (fun s => s.status = TransactionStatus.completed)).length
                = tx.steps.length
          · rw [processLoop_completed_branch handler now n tx hex hready
              hfail hlen]
            exact h
          · rw [processLoop_wait_branch handler now n tx hex hready
              hfail hlen]
            exact ih tx h
        · rw [processLoop_failed_branch handler now n tx hex hready
            hfail]
          exact h
      · rw [processLoop_exec_branch handler now n tx hex hready]
        exact ih _ (iter_statusWellFormed handler now tx h)
    · rw [processLoop_not_executing handler now n tx hex]
      exact h

/-- C10: plans built by purchase and listing initiation start with every
step `pending`; the loop only ever moves a step's status within
`{pending, completed, failed}`; and cancellation moves the transaction to
history with its steps untouched — so `approved`, `executing` and
`cancelled`, though present in the shared enum, are never assigned to a
step. -/
theorem C10_step_status_range (handler : Handler)
    (now uuidHex buyer seller nft reason i : String) (price : ℚ)
    (md : Option MDict) (fuel : Nat) (tx : Transaction)
    (c : TransactionCoordinator) :
    (∀ s ∈ purchaseSteps ("tx_" ++ uuidHex) buyer seller nft price,
      s.status = TransactionStatus.pending) ∧
    (∀ s ∈ listingSteps ("tx_" ++ uuidHex) seller nft price md,
      s.status = TransactionStatus.pending) ∧
    (statusWellFormed tx.steps →
      statusWellFormed (processLoop handler now fuel tx).steps) ∧
    (∀ tx2, assocFind c.active_transactions i = some tx2 →
      ¬ (tx2.status = TransactionStatus.completed ∨
        tx2.status = TransactionStatus.failed) →
      ∃ t ∈ (cancel_transaction c i reason now).2.transaction_history,
        t.steps = tx2.steps ∧
          t.status = TransactionStatus.cancelled) := by
  refine ⟨?_, ?_, processLoop_statusWellFormed handler now fuel tx, ?_⟩
  · intro s hs
    simp only [purchaseSteps, List.mem_cons, List.not_mem_nil,
      or_false] at hs
    rcases hs with rfl | rfl | rfl | rfl | rfl <;> rfl
  · intro s hs
    simp only [listingSteps, List.mem_cons, List.not_mem_nil,
      or_false] at hs
    rcases hs with rfl | rfl | rfl <;> rfl
  · intro tx2 h ht
    rw [cancel_transaction_live c i reason now tx2 h ht]
    exact ⟨{ tx2 with
        status := TransactionStatus.cancelled, updated_at := now,
        metadata := assocSet tx2.metadata "cancellation_reason"
          (PAtom.str reason) }, by simp, rfl, rfl⟩

/-- Closed instance of `C10_step_status_range`: the three-value invariant
holds after running the purchase plan, and cancelling the fresh purchase
leaves its steps untouched. -/
theorem C10_step_status_range_witness :
    statusWellFormed
      (processLoop handlerOkW "t1" 6 purchaseTxExecW).steps ∧
    (∃ t ∈ (cancel_transaction coordW "tx_abc" "r"
        "t2").2.transaction_history,
      t.steps = purchaseTxW.steps ∧
        t.status = TransactionStatus.cancelled) :=
  ⟨(C10_step_status_range handlerOkW "t1" "abc" "B" "S" "X" "r"
      "tx_abc" 100 none 6 purchaseTxExecW coordW).2.2.1 (by decide),
   (C10_step_status_range handlerOkW "t2" "abc" "B" "S" "X" "r"
      "tx_abc" 100 none 6 purchaseTxExecW coordW).2.2.2 purchaseTxW
      (by rfl) (by decide)⟩

end TxCoord
